import Mathlib

/-!
Verification of the apple-nvram library (asahi-nvram repository).

This file shallowly embeds the core of `apple-nvram/src/v3.rs`,
`apple-nvram/src/v1v2.rs` and the checksum primitives, and proves or
refutes the frozen claims about them.

Byte buffers (`&[u8]`) are modelled as a length plus a contents
function (`Bytes`); machine integers are `Nat` with explicit `% 2^w`
where Rust wrapping (release-mode) semantics matter.  Rust panics
(out-of-bounds slice, `unwrap` on an `Invalid` slot, `%` by zero) are
modelled by a distinguished `fatal` outcome.
-/

namespace ANvram

/-- Model of a Rust byte slice `&[u8]`: a length and a contents function.
Reads use `Bytes.byte` which truncates to `u8` range. -/
structure Bytes where
  len : Nat
  data : Nat → Nat

/-- A byte read: the source works with `u8` values. -/
def Bytes.byte (w : Bytes) (i : Nat) : Nat := w.data i % 256

/-- Build a `Bytes` from a concrete list (out-of-range reads give 0,
they are never reached by in-bounds code). -/
def bytesOfList (l : List Nat) : Bytes := ⟨l.length, fun i => l.getD i 0⟩

/-- `&w[a..]`: offset view (bounds are checked at each use site, as the
corresponding Rust slice expression panics there). -/
def bdrop (w : Bytes) (a : Nat) : Bytes := ⟨w.len - a, fun i => w.data (a + i)⟩

/-- `&w[a..b]` where the caller has checked `a ≤ b ∧ b ≤ w.len`. -/
def bslice (w : Bytes) (a b : Nat) : Bytes := ⟨b - a, fun i => w.data (a + i)⟩

/-- `u16::from_le_bytes` on two bytes at offset `o`. -/
def rdU16 (w : Bytes) (o : Nat) : Nat := w.byte o + 256 * w.byte (o + 1)

/-- `u32::from_le_bytes` on four bytes at offset `o`. -/
def rdU32 (w : Bytes) (o : Nat) : Nat :=
  w.byte o + 256 * w.byte (o + 1) + 65536 * w.byte (o + 2) + 16777216 * w.byte (o + 3)

/-- The `n` bytes starting at offset `o`, as a list. -/
def readBytes (w : Bytes) (o n : Nat) : List Nat :=
  (List.range n).map (fun i => w.byte (o + i))

/-- The window `w` holds exactly the bytes `l` at offset `o` (used to
state round-trip lemmas about images built from serialized parts). -/
def readsAs (w : Bytes) (o : Nat) (l : List Nat) : Prop :=
  ∀ i, i < l.length → w.byte (o + i) = l.getD i 0

/-- `u16::to_le_bytes`. -/
def le16 (n : Nat) : List Nat := [n % 256, n / 256 % 256]

/-- `u32::to_le_bytes`. -/
def le32 (n : Nat) : List Nat :=
  [n % 256, n / 256 % 256, n / 65536 % 256, n / 16777216 % 256]

/-- Rust panic modelling: a computation either succeeds, returns an
error, or panics (`fatal`). -/
inductive PRes (ε : Type) (α : Type) where
  | ok : α → PRes ε α
  | err : ε → PRes ε α
  | fatal : PRes ε α
deriving Repr, DecidableEq

/-- The crate-level error enum (`Error` in lib.rs; `ApplyError` wraps a
writer io failure). -/
inductive Err where
  | parseError
  | sectionTooBig
  | applyError
deriving Repr, DecidableEq

/-- The two variable namespaces (`VarType`). -/
inductive VarType where
  | Common
  | System
deriving Repr, DecidableEq

/-! ## CRC-32 (crc32fast::hash — standard reflected IEEE CRC-32) -/

/-- One bit step of reflected CRC-32 with polynomial 0xEDB88320. -/
def crc32Round (c : Nat) : Nat :=
  if c % 2 = 1 then (c / 2) ^^^ 0xEDB88320 else c / 2

/-- Absorb one byte into the CRC state. -/
def crc32Byte (c b : Nat) : Nat := crc32Round^[8] (c ^^^ (b % 256))

/-- `crc32fast::hash`. -/
def crc32 (l : List Nat) : Nat := (l.foldl crc32Byte 0xFFFFFFFF) ^^^ 0xFFFFFFFF

/-! ## Adler-32 (adler32::adler32) -/

/-- One byte of Adler-32: `a = (a+x) mod 65521; b = (b+a) mod 65521`. -/
def adlerStep (p : Nat × Nat) (x : Nat) : Nat × Nat :=
  ((p.1 + x % 256) % 65521, (p.2 + (p.1 + x % 256) % 65521) % 65521)

/-- `adler32::adler32` over a byte sequence. -/
def adler32 (l : List Nat) : Nat :=
  let p := l.foldl adlerStep (1, 0)
  p.2 * 65536 + p.1

/-! ## v1v2 escape codec (`UnescapeVal`) -/

/-- The `UnescapeVal` iterator, drained to a list.  On `0xFF` the next
byte `c` selects the fill (high bit) and the count `c & 0x7F`; the
`remaining` counter is the u8 value `(c & 0x7F) - 1` (wrapping, as in a
release build), so the total number of emitted fill bytes is
`(c & 0x7F)` when the low bits are nonzero and `256` when they are
zero.  A `0xFF` at end of input ends the stream. -/
def unescape : List Nat → List Nat
  | [] => []
  | n :: rest =>
    if n % 256 ≠ 0xFF then n % 256 :: unescape rest
    else
      match rest with
      | [] => []
      | c :: rest2 =>
        let fill := if (c % 256) &&& 0x80 = 0 then 0 else 0xFF
        let emitted := 1 + (((c % 256) &&& 0x7F) + 255) % 256
        List.replicate emitted fill ++ unescape rest2

/-! ## CHRP checksum (lib.rs `chrp_checksum_add`) -/

/-- Byte addition with end-around carry. -/
def chrpChecksumAdd (lhs rhs : Nat) : Nat :=
  let s := lhs + rhs
  if s ≥ 256 then s % 256 + 1 else s % 256

/-- `slice_rstrip(ts, &0)`: drop trailing zero bytes. -/
def rstripZeros (l : List Nat) : List Nat :=
  (l.reverse.dropWhile (fun x => x == 0)).reverse

/-- `slice_find(ts, &t)`: index of the first occurrence. -/
def sliceFindIdx (l : List Nat) (t : Nat) : Option Nat :=
  l.findIdx? (fun x => x == t)

/-! ## v3 variable store (`v3.rs`) -/

namespace V3

/-- `Slot<T>`: the three states of a bank slot. -/
inductive Slot (α : Type) where
  | Valid : α → Slot α
  | Invalid : Slot α
  | Empty : Slot α
deriving Repr, DecidableEq

/-- `Slot::empty`. -/
def Slot.isEmpty {α : Type} : Slot α → Bool
  | .Empty => true
  | _ => false

/-- The internal v3 error enum (`V3Error`). -/
inductive V3Err where
  | parseError
  | empty
deriving Repr, DecidableEq

/-- `APPLE_COMMON_VARIABLE_GUID`. -/
def commonGuid : List Nat :=
  [0x7C, 0x43, 0x61, 0x10, 0xAB, 0x2A, 0x4B, 0xBB,
   0xA8, 0x80, 0xFE, 0x41, 0x99, 0x5C, 0x9F, 0x82]

/-- `APPLE_SYSTEM_VARIABLE_GUID`. -/
def systemGuid : List Nat :=
  [0x40, 0xA0, 0xDD, 0xD2, 0x77, 0xF8, 0x43, 0x92,
   0xB4, 0xA3, 0x1E, 0x73, 0x04, 0x20, 0x65, 0x16]

/-- `VAR_ADDED`. -/
def VAR_ADDED : Nat := 0x7F
/-- `VAR_IN_DELETED_TRANSITION`. -/
def VAR_IN_DELETED_TRANSITION : Nat := 0xFE
/-- `VAR_DELETED`. -/
def VAR_DELETED : Nat := 0xFD

/-- `VarHeader` (the parsed fields; the GUID is kept as its 16 raw
bytes, sizes are u32 values). -/
structure VarHeader where
  state : Nat
  attrs : Nat
  name_size : Nat
  data_size : Nat
  guid : List Nat
  crc : Nat
deriving Repr, DecidableEq

/-- `Variable`: header plus the key (without trailing NUL) and value. -/
structure Variable where
  header : VarHeader
  key : List Nat
  value : List Nat
deriving Repr, DecidableEq

/-- `Variable::size`: `VAR_HEADER_SIZE + (name_size + data_size) as usize`
— the u32 sum wraps at 2^32 before the usize cast. -/
def Variable.size (v : Variable) : Nat :=
  36 + (v.header.name_size + v.header.data_size) % 4294967296

/-- `Variable::typ`: the system GUID means System, anything else Common. -/
def Variable.typ (v : Variable) : VarType :=
  if v.header.guid = systemGuid then VarType.System else VarType.Common

/-- `StoreHeader`. -/
structure StoreHeader where
  name : List Nat
  size : Nat
  generation : Nat
  state : Nat
  flags : Nat
  version : Nat
  system_size : Nat
  common_size : Nat
deriving Repr, DecidableEq

/-- `b"3VVN"`. -/
def storeSignature : List Nat := [0x33, 0x56, 0x56, 0x4E]

/-- `StoreHeader::parse` (called on a 24-byte window). -/
def StoreHeader.parse (w : Bytes) : PRes V3Err StoreHeader :=
  let name := readBytes w 0 4
  let size := rdU32 w 4
  let generation := rdU32 w 8
  let state := w.byte 12
  let flags := w.byte 13
  let version := w.byte 14
  let system_size := rdU32 w 16
  let common_size := rdU32 w 20
  if name ≠ storeSignature then .err .parseError
  else if version ≠ 1 then .err .parseError
  else .ok ⟨name, size, generation, state, flags, version, system_size, common_size⟩

/-- `StoreHeader::serialize` (the signature constant is emitted, the
reserved byte is written as 0). -/
def StoreHeader.serialize (h : StoreHeader) : List Nat :=
  storeSignature ++ le32 h.size ++ le32 h.generation ++
  [h.state % 256, h.flags % 256, h.version % 256, 0] ++
  le32 h.system_size ++ le32 h.common_size

/-- `VarHeader::parse` on the window `&nvr[offset..]`.  Reads panic when
the window is too short; the length guard uses the (wrapping) u32 sum
of the sizes. -/
def VarHeader.parse (w : Bytes) : PRes V3Err VarHeader :=
  if w.len < 2 then .fatal
  else if rdU16 w 0 ≠ 0x55AA then .err .parseError
  else if w.len < 36 then .fatal
  else
    let state := w.byte 2
    let attrs := rdU32 w 4
    let name_size := rdU32 w 8
    let data_size := rdU32 w 12
    let guid := readBytes w 16 16
    let crc := rdU32 w 32
    if 36 + (name_size + data_size) % 4294967296 > w.len then .err .parseError
    else .ok ⟨state, attrs, name_size, data_size, guid, crc⟩

/-- `VarHeader::serialize`. -/
def VarHeader.serialize (h : VarHeader) : List Nat :=
  [0xAA, 0x55, h.state % 256, 0] ++ le32 h.attrs ++ le32 h.name_size ++
  le32 h.data_size ++ h.guid ++ le32 h.crc

/-- `Variable::serialize`: header, key, NUL, value. -/
def Variable.serialize (v : Variable) : List Nat :=
  v.header.serialize ++ v.key ++ [0] ++ v.value

/-- `Partition`: store header plus the ordered record log (pairs of key
and variable, as in the source). -/
structure Partition where
  header : StoreHeader
  values : List (List Nat × Variable)
deriving Repr, DecidableEq

/-- The 36-byte emptiness test in `Partition::parse`: every byte is
0x00 or 0xFF. -/
def emptyCheck (w : Bytes) (offset : Nat) : Bool :=
  (List.range 36).all (fun i => w.byte (offset + i) == 0 || w.byte (offset + i) == 0xFF)

/-- The record-walk loop of `Partition::parse`.  Slice panics
(`&nvr[a..b]` with `a > b` or `b > len`) are `fatal`.  The loop is
written with structural fuel: every iteration advances `offset` by at
least 37 while the guard keeps `offset < size`, so the `size + 1` units of
fuel passed by `Partition.parse` can never run out; the fuel-zero arm
is unreachable and marked `fatal`. -/
def parseRecords (w : Bytes) (size : Nat) : Nat → Nat → List (List Nat × Variable) →
    PRes V3Err (List (List Nat × Variable))
  | 0, _, _ => .fatal
  | fuel + 1, offset, acc =>
    if offset + 36 < size then
      if emptyCheck w offset then .ok acc
      else if offset > w.len then .fatal
      else
        match VarHeader.parse (bdrop w offset) with
        | .fatal => .fatal
        | .err e => .err e
        | .ok vh =>
          let k_begin := offset + 36
          let k_end := k_begin + vh.name_size
          if k_begin > k_end - 1 ∨ k_end - 1 > w.len then .fatal
          else
            let key := readBytes w k_begin (k_end - 1 - k_begin)
            let v_end := k_end + vh.data_size
            if v_end > w.len then .fatal
            else
              let value := readBytes w k_end (v_end - k_end)
              if crc32 value ≠ vh.crc then .err .parseError
              else
                let v : Variable := ⟨vh, key, value⟩
                parseRecords w size fuel (offset + v.size) (acc ++ [(key, v)])
    else .ok acc

/-- All-0xFF scan, expressed as the short-circuiting loop of the source
(`try_for_each`): stops at the first non-0xFF byte. -/
def allFF (w : Bytes) : Nat → Nat → Bool
  | 0, _ => true
  | fuel + 1, i => if w.byte i ≠ 0xFF then false else allFF w fuel (i + 1)

/-- `Partition::parse` on a 0x10000-byte bank window. -/
def Partition.parse (w : Bytes) : PRes V3Err Partition :=
  if w.len < 24 then .fatal
  else
    match StoreHeader.parse (bslice w 0 24) with
    | .ok header =>
      match parseRecords w header.size (header.size + 1) 24 [] with
      | .ok values => .ok ⟨header, values⟩
      | .err e => .err e
      | .fatal => .fatal
    | _ =>
      if allFF w w.len 0 then .err .empty
      else .err .parseError

/-- `Partition::generation`. -/
def Partition.generation (p : Partition) : Nat := p.header.generation

/-- `Partition::total_used`: store header plus every record, including
tombstoned duplicates. -/
def Partition.totalUsed (p : Partition) : Nat :=
  24 + p.values.foldl (fun acc v => acc + v.2.size) 0

/-- `Partition::system_used`: active (VAR_ADDED) system-GUID records. -/
def Partition.systemUsed (p : Partition) : Nat :=
  (p.values.filter (fun v => v.2.header.state = VAR_ADDED ∧ v.2.header.guid = systemGuid)).foldl
    (fun acc v => acc + v.2.size) 0

/-- `Partition::common_used`: active (VAR_ADDED) common-GUID records. -/
def Partition.commonUsed (p : Partition) : Nat :=
  (p.values.filter (fun v => v.2.header.state = VAR_ADDED ∧ v.2.header.guid = commonGuid)).foldl
    (fun acc v => acc + v.2.size) 0

/-- `Partition::serialize`: header, records in log order, 0xFF padding
up to the header's declared size.  The pad count is the usize
subtraction `header.size() - my_size`: when the serialized content
exceeds the declared size it underflows — debug builds panic, release
builds wrap and push ~2^64 bytes until the process aborts — modelled as
`none`. -/
def Partition.serialize (p : Partition) : Option (List Nat) :=
  let body := p.header.serialize ++ p.values.flatMap (fun e => e.2.serialize)
  if body.length ≤ p.header.size then
    some (body ++ List.replicate (p.header.size - body.length) 0xFF)
  else none

/-- `Partition::clone_active`: keep only VAR_ADDED records (in order)
and bump the generation (u32 wrap). -/
def Partition.cloneActive (p : Partition) : Partition :=
  { header := { p.header with generation := (p.header.generation + 1) % 4294967296 },
    values := p.values.filter (fun v => v.2.header.state = VAR_ADDED) }

/-- `Partition::get_variable`: first record in log order matching key,
type and VAR_ADDED state. -/
def Partition.getVariable (p : Partition) (key : List Nat) (typ : VarType) :
    Option Variable :=
  (p.values.find? (fun e =>
    e.1 == key && e.2.typ == typ && e.2.header.state == VAR_ADDED)).map (fun e => e.2)

/-- The state-clearing pass shared by insert and remove: every record
matching key and type whose state is VAR_ADDED gets
`state & VAR_DELETED & VAR_IN_DELETED_TRANSITION` (= 0x7C). -/
def Partition.invalidate (p : Partition) (key : List Nat) (typ : VarType) : Partition :=
  { p with values := p.values.map (fun e =>
      if e.1 = key ∧ e.2.typ = typ ∧ e.2.header.state = VAR_ADDED then
        (e.1, { e.2 with header := { e.2.header with
          state := e.2.header.state &&& VAR_DELETED &&& VAR_IN_DELETED_TRANSITION } })
      else e) }

/-- The GUID chosen for a kind on insert. -/
def guidOf : VarType → List Nat
  | VarType.Common => commonGuid
  | VarType.System => systemGuid

/-- The record appended by `insert_variable`. -/
def freshVar (key value : List Nat) (typ : VarType) : Variable :=
  ⟨⟨VAR_ADDED, 0, key.length + 1, value.length, guidOf typ, crc32 value⟩, key, value⟩

/-- `Partition::insert_variable`. -/
def Partition.insertVariable (p : Partition) (key value : List Nat) (typ : VarType) :
    Partition :=
  let p := p.invalidate key typ
  { p with values := p.values ++ [(key, freshVar key value typ)] }

/-- `Partition::remove_variable`. -/
def Partition.removeVariable (p : Partition) (key : List Nat) (typ : VarType) :
    Partition :=
  p.invalidate key typ

/-- `Nvram` (v3): the 16-entry slot array is a total function (writes
beyond index 15 panic in the source; `Nvram.parse` reports them as
`fatal`). -/
structure Nvram where
  partitions : Nat → Slot Partition
  partition_count : Nat
  active : Nat

/-- Array update for the slot table. -/
def setSlot (f : Nat → Slot Partition) (i : Nat) (s : Slot Partition) :
    Nat → Slot Partition :=
  fun j => if j = i then s else f j

/-- The bank loop of `Nvram::parse`, over the remaining bank indices,
carrying `(partitions, active, max_gen, valid_partitions)`. -/
def parseBanks (w : Bytes) : List Nat → (Nat → Slot Partition) → Nat → Nat → Nat →
    PRes Err ((Nat → Slot Partition) × Nat × Nat)
  | [], parts, active, _, valid => .ok (parts, active, valid)
  | i :: rest, parts, active, maxGen, valid =>
    if i * 65536 ≥ w.len then .ok (parts, active, valid)
    else
      match Partition.parse (bslice w (i * 65536) (i * 65536 + 65536)) with
      | .fatal => .fatal
      | .ok p =>
        if p.generation > maxGen then
          parseBanks w rest (setSlot parts i (.Valid p)) i p.generation (valid + 1)
        else
          parseBanks w rest (setSlot parts i (.Valid p)) active maxGen (valid + 1)
      | .err .empty => parseBanks w rest (setSlot parts i .Empty) active maxGen valid
      | .err .parseError => parseBanks w rest (setSlot parts i .Invalid) active maxGen valid

/-- `Nvram::parse` (v3).  A bank count above 16 overruns the fixed
16-slot array and panics. -/
def Nvram.parse (w : Bytes) : PRes Err Nvram :=
  let partition_count := w.len / 65536
  if partition_count > 16 then .fatal
  else
    match parseBanks w (List.range partition_count) (fun _ => .Empty) 0 0 0 with
    | .fatal => .fatal
    | .err e => .err e
    | .ok (parts, active, valid) =>
      if valid = 0 then .err .parseError
      else .ok ⟨parts, partition_count, active⟩

/-- The serialize loop of `Nvram::serialize` (v3): extend the output
with each bank in turn; a panic in any bank's serialize propagates. -/
def serializeParts : List Partition → Option (List Nat)
  | [] => some []
  | p :: rest =>
    match p.serialize, serializeParts rest with
    | some b, some r => some (b ++ r)
    | _, _ => none

/-- `Nvram::serialize` (v3): concatenate the Valid banks among the
first `partition_count` slots (`none` when a bank's serialize panics). -/
def Nvram.serialize (nv : Nvram) : Option (List Nat) :=
  serializeParts ((List.range nv.partition_count).filterMap (fun i =>
    match nv.partitions i with
    | .Valid p => some p
    | _ => none))

/-- Writer events observed by `apply`. -/
inductive WEvent where
  | erase (offset size : Nat)
  | write (offset : Nat) (data : List Nat)
deriving Repr, DecidableEq

/-- `Nvram::apply` (v3).  The writer is abstracted by its observable
event trace plus a flag `wfail` saying whether `write_all` reports an
io error.  `none` models the panics (`unwrap` of a non-Valid active
slot; `% 0` when the container has no banks; the pad-count underflow
abort inside `Partition::serialize` on the write path). -/
def Nvram.apply (nv : Nvram) (wfail : Bool) :
    Option (Nvram × List WEvent × Except Err Unit) :=
  match nv.partitions nv.active with
  | .Valid ap =>
    if ap.systemUsed > ap.header.system_size then
      some (nv, [], .error .sectionTooBig)
    else if ap.commonUsed > ap.header.common_size then
      some (nv, [], .error .sectionTooBig)
    else if ap.totalUsed ≤ 65536 then
      match ap.serialize with
      | some data =>
        some (nv, [.write (nv.active * 65536) data],
          if wfail then .error .applyError else .ok ())
      | none => none
    else if nv.partition_count = 0 then none
    else
      let newActive := (nv.active + 1) % nv.partition_count
      let offset := newActive * 65536
      let evs := if (nv.partitions newActive).isEmpty then []
                 else [WEvent.erase offset 65536]
      let newp := ap.cloneActive
      let nv' : Nvram := ⟨setSlot nv.partitions newActive (.Valid newp),
                          nv.partition_count, newActive⟩
      if newp.totalUsed > 65536 then
        some (nv', evs, .error .sectionTooBig)
      else
        match newp.serialize with
        | some data =>
          some (nv', evs ++ [.write offset data],
            if wfail then .error .applyError else .ok ())
        | none => none
  | _ => none

end V3

/-! ## v1v2 CHRP store (`v1v2.rs`) -/

namespace V12

/-- `Variable` (v1v2): key, the stored (escaped) value bytes, kind. -/
structure Variable where
  key : List Nat
  value : List Nat
  typ : VarType
deriving Repr, DecidableEq

/-- `Variable::value()`: the escape decoder applied to the stored bytes. -/
def Variable.valueOut (v : Variable) : List Nat := unescape v.value

/-- `CHRPHeader`. -/
structure CHRPHeader where
  name : List Nat
  size : Nat
  signature : Nat
deriving Repr, DecidableEq

/-- `CHRPHeader::checksum`: end-around-carry byte sum over name,
signature, size low byte, size high byte. -/
def CHRPHeader.checksum (h : CHRPHeader) : Nat :=
  chrpChecksumAdd (chrpChecksumAdd (chrpChecksumAdd (h.name.foldl chrpChecksumAdd 0)
    (h.signature % 256)) (h.size % 256)) (h.size / 256 % 256)

/-- `CHRPHeader::parse` on a 16-byte window (the `&nvr[..16]` slice at
the call sites panics on shorter input; callers check that). -/
def CHRPHeader.parse (w : Bytes) : PRes Err CHRPHeader :=
  let signature := w.byte 0
  let cksum := w.byte 1
  let size := rdU16 w 2
  let name := rstripZeros (readBytes w 4 12)
  let cand : CHRPHeader := ⟨name, size, signature⟩
  if cand.checksum ≠ cksum then .err .parseError
  else .ok cand

/-- `CHRPHeader::serialize`: signature, computed checksum, size (LE),
name zero-padded to 12 bytes (a name longer than 12 underflows the
padding count and panics; canonical headers avoid that). -/
def CHRPHeader.serialize (h : CHRPHeader) : List Nat :=
  [h.signature % 256, h.checksum] ++ le16 h.size ++
  h.name ++ List.replicate (12 - h.name.length) 0

/-- `Section`: header plus the key-value map.  The source uses a
`HashMap`; it is modelled as an association list in insertion order,
with `insert` replacing in place. -/
structure Section where
  header : CHRPHeader
  values : List (List Nat × Variable)
deriving Repr, DecidableEq

/-- `HashMap::insert` on the association-list model: replace the entry
if the key is present, else append. -/
def mapInsert (m : List (List Nat × Variable)) (k : List Nat) (v : Variable) :
    List (List Nat × Variable) :=
  if m.any (fun e => e.1 == k) then
    m.map (fun e => if e.1 = k then (e.1, v) else e)
  else m ++ [(k, v)]

/-- `HashMap::get` on the model. -/
def mapGet (m : List (List Nat × Variable)) (k : List Nat) : Option Variable :=
  (m.find? (fun e => e.1 == k)).map (fun e => e.2)

/-- `HashMap::remove` on the model. -/
def mapRemove (m : List (List Nat × Variable)) (k : List Nat) :
    List (List Nat × Variable) :=
  m.filter (fun e => e.1 ≠ k)

/-- Scan for the first zero byte at or after `pos` (the `slice_find`
of the record loop); `fuel` is the remaining window length and the
returned index is relative to `pos`. -/
def findZero (w : Bytes) : Nat → Nat → Option Nat
  | 0, _ => none
  | fuel + 1, pos =>
    if w.byte pos = 0 then some 0
    else (findZero w fuel (pos + 1)).map (· + 1)

/-- The record loop of `Section::parse`, at absolute offset `o` of the
section's buffer: repeatedly take the bytes up to the next zero, split
at the first `'='`, and insert; stop when no zero remains or the
candidate has no `'='`.  `hdrName` decides the kind of each record.
Structural fuel: every iteration advances `o` by at least one while a
zero byte exists below `w.len`, so the `w.len + 1` units of fuel passed
by `Section.parse` can never run out. -/
def parseSecVars (w : Bytes) (hdrName : List Nat) : Nat → Nat →
    List (List Nat × Variable) → List (List Nat × Variable)
  | 0, _, vals => vals
  | fuel + 1, o, vals =>
    match findZero w (w.len - o) o with
    | none => vals
    | some z =>
      let cand := readBytes w o z
      match sliceFindIdx cand 61 with
      | none => vals
      | some eq =>
        let key := cand.take eq
        let typ := if hdrName = [99, 111, 109, 109, 111, 110] then VarType.Common
                   else VarType.System
        let vl := cand.drop (eq + 1)
        parseSecVars w hdrName fuel (o + z + 1) (mapInsert vals key ⟨key, vl, typ⟩)

/-- `Section::parse`: CHRP header at 0, then the record loop from
byte 16.  The buffer extends to the end of the enclosing input — the
declared size is not consulted by the loop. -/
def Section.parse (w : Bytes) : PRes Err Section :=
  if w.len < 16 then .fatal
  else
    match CHRPHeader.parse (bslice w 0 16) with
    | .ok header => .ok ⟨header, parseSecVars w header.name (w.len + 1) 16 []⟩
    | .err e => .err e
    | .fatal => .fatal

/-- `Section::size_bytes`. -/
def Section.sizeBytes (s : Section) : Nat := s.header.size * 16

/-- `Section::serialize`: header, `key=value NUL` records, zero
padding to the declared size; `SectionTooBig` when the records
overflow it.  The source iterates a `HashMap` in unspecified order;
the model emits the association list's insertion order, so no theorem
below relies on the order of the emitted records. -/
def Section.serialize (s : Section) : Except Err (List Nat) :=
  let body := s.header.serialize ++
    s.values.flatMap (fun e => e.2.key ++ [61] ++ e.2.value ++ [0])
  if body.length > s.sizeBytes then .error .sectionTooBig
  else .ok (body ++ List.replicate (s.sizeBytes - body.length) 0)

/-- `Partition` (v1v2). -/
structure Partition where
  header : CHRPHeader
  generation : Nat
  common : Section
  system : Section
deriving Repr, DecidableEq

/-- `b"nvram"`. -/
def nvramName : List Nat := [110, 118, 114, 97, 109]
/-- `b"common"`. -/
def commonName : List Nat := [99, 111, 109, 109, 111, 110]
/-- `b"system"`. -/
def systemName : List Nat := [115, 121, 115, 116, 101, 109]

/-- `Partition::parse` (v1v2): CHRP header named "nvram", stored
Adler-32 at 16, generation at 20, two sections from offset 32, Adler
check over `[20 .. 32+sizeA+sizeB)`, then name-based section
assignment. -/
def Partition.parse (w : Bytes) : PRes Err Partition :=
  if w.len < 16 then .fatal
  else
    match CHRPHeader.parse (bslice w 0 16) with
    | .fatal => .fatal
    | .err e => .err e
    | .ok header =>
      if header.name ≠ nvramName then .err .parseError
      else if w.len < 24 then .fatal
      else
        let adler := rdU32 w 16
        let generation := rdU32 w 20
        if w.len < 32 then .fatal
        else
          match Section.parse (bdrop w 32) with
          | .fatal => .fatal
          | .err e => .err e
          | .ok sec1 =>
            if 32 + sec1.sizeBytes > w.len then .fatal
            else
              match Section.parse (bdrop w (32 + sec1.sizeBytes)) with
              | .fatal => .fatal
              | .err e => .err e
              | .ok sec2 =>
                if 32 + sec1.sizeBytes + sec2.sizeBytes > w.len then .fatal
                else if adler ≠ adler32 (readBytes w 20 (12 + sec1.sizeBytes + sec2.sizeBytes))
                then .err .parseError
                else
                  let com : Option Section :=
                    if sec1.header.name = commonName then some sec1
                    else if sec2.header.name = commonName then some sec2
                    else none
                  let sys : Option Section :=
                    if sec1.header.name = systemName then some sec1
                    else if sec2.header.name = systemName then some sec2
                    else none
                  match com, sys with
                  | some c, some s => .ok ⟨header, generation, c, s⟩
                  | _, _ => .err .parseError

/-- `Partition::size_bytes`. -/
def Partition.sizeBytes (p : Partition) : Nat :=
  32 + p.common.sizeBytes + p.system.sizeBytes

/-- `Partition::serialize`: header, Adler placeholder patched after the
fact, generation, 8 reserved zero bytes, common section, system
section. -/
def Partition.serialize (p : Partition) : Except Err (List Nat) := do
  let com ← p.common.serialize
  let sys ← p.system.serialize
  let payload := le32 (p.generation % 4294967296) ++ List.replicate 8 0 ++ com ++ sys
  return p.header.serialize ++ le32 (adler32 payload) ++ payload

/-- `Partition::get_variable` (v1v2): common map first, then system —
the kind is not an argument in the source. -/
def Partition.getVariable (p : Partition) (key : List Nat) : Option Variable :=
  match mapGet p.common.values key with
  | some v => some v
  | none => mapGet p.system.values key

/-- `Partition::insert_variable` (v1v2). -/
def Partition.insertVariable (p : Partition) (key value : List Nat) (typ : VarType) :
    Partition :=
  match typ with
  | VarType.Common => { p with common := { p.common with
      values := mapInsert p.common.values key ⟨key, value, typ⟩ } }
  | VarType.System => { p with system := { p.system with
      values := mapInsert p.system.values key ⟨key, value, typ⟩ } }

/-- `Partition::remove_variable` (v1v2). -/
def Partition.removeVariable (p : Partition) (key : List Nat) (typ : VarType) :
    Partition :=
  match typ with
  | VarType.Common => { p with common := { p.common with
      values := mapRemove p.common.values key } }
  | VarType.System => { p with system := { p.system with
      values := mapRemove p.system.values key } }

/-- `Nvram` (v1v2): exactly two banks. -/
structure Nvram where
  p0 : Partition
  p1 : Partition
  active : Nat
deriving Repr, DecidableEq

/-- `Nvram::parse` (v1v2): partitions at 0 and 0x10000; if exactly one
parses, it is cloned into the other slot; active is the bank with the
strictly greater generation (ties go to index 1). -/
def Nvram.parse (w : Bytes) : PRes Err Nvram :=
  match Partition.parse w with
  | .fatal => .fatal
  | r1 =>
    if w.len < 65536 then .fatal
    else
      match r1, Partition.parse (bdrop w 65536) with
      | .err e, .err _ => .err e
      | .ok p1r, .err _ => .ok ⟨p1r, p1r, if p1r.generation > p1r.generation then 0 else 1⟩
      | .err _, .ok p2r => .ok ⟨p2r, p2r, if p2r.generation > p2r.generation then 0 else 1⟩
      | .ok p1r, .ok p2r => .ok ⟨p1r, p2r, if p1r.generation > p2r.generation then 0 else 1⟩
      | .fatal, _ => .fatal
      | _, .fatal => .fatal

/-- `Nvram::serialize` (v1v2): both banks, back to back. -/
def Nvram.serialize (nv : Nvram) : Except Err (List Nat) := do
  let b0 ← nv.p0.serialize
  let b1 ← nv.p1.serialize
  return b0 ++ b1

/-- The active partition of the v1v2 container. -/
def Nvram.activePart (nv : Nvram) : Partition :=
  if nv.active = 0 then nv.p0 else nv.p1

/-- Replace the active partition of the v1v2 container. -/
def Nvram.setActivePart (nv : Nvram) (p : Partition) : Nvram :=
  if nv.active = 0 then { nv with p0 := p } else { nv with p1 := p }

end V12


/-! ## Concrete inputs used by the claim theorems -/

/-- C3 input, second bank: a valid v3 store header with generation 0
and store size 24 (no records). -/
def c3bank1 : List Nat :=
  [0x33, 0x56, 0x56, 0x4E, 24, 0, 0, 0, 0, 0, 0, 0, 0, 0, 1, 0,
   0, 0, 0, 0, 0, 0, 0, 0]

/-- C3 input: a 0x20000-byte v3 image whose bank 0 is zero-filled
(Invalid) and whose bank 1 is the only Valid bank, with generation 0. -/
def c3img : Bytes :=
  ⟨131072, fun i => if i < 65536 then 0 else c3bank1.getD (i - 65536) 0⟩

/-- The partition parsed from bank 1 of `c3img`. -/
def c3part : V3.Partition := ⟨⟨V3.storeSignature, 24, 0, 0, 0, 1, 0, 0⟩, []⟩

/-- The container parsed from `c3img`. -/
def c3nv : V3.Nvram :=
  ⟨V3.setSlot (V3.setSlot (fun _ => .Empty) 0 .Invalid) 1 (.Valid c3part), 2, 0⟩

/-- C10 input: a 0x10000-byte bank whose store header is valid
(size 0x10000) and whose first record header has `name_size = 0`. -/
def c10bank : Bytes :=
  ⟨65536, fun i =>
    if i < 60 then
      ([0x33, 0x56, 0x56, 0x4E, 0, 0, 1, 0, 1, 0, 0, 0, 0, 0, 1, 0,
        0, 0, 0, 0, 0, 0, 0, 0] ++
       [0xAA, 0x55, 0x7F, 0, 0, 0, 0, 0, 0, 0, 0, 0, 0, 0, 0, 0] ++
       V3.commonGuid ++ [0, 0, 0, 0]).getD i 0
    else 0xFF⟩

/-- C5 input, partition 0 header: "nvram", size 0x1000, signature 0x5A. -/
def c5p0hdr : List Nat := V12.CHRPHeader.serialize ⟨V12.nvramName, 4096, 0x5A⟩
/-- C5 input, common section header (1 size unit: header only). -/
def c5secA : List Nat := V12.CHRPHeader.serialize ⟨V12.commonName, 1, 0x70⟩
/-- C5 input, system section header (1 size unit: header only). -/
def c5secB : List Nat := V12.CHRPHeader.serialize ⟨V12.systemName, 1, 0x70⟩
/-- C5 input, the Adler-covered payload: generation 5, reserved zeros,
both section headers. -/
def c5payload : List Nat := le32 5 ++ List.replicate 8 0 ++ c5secA ++ c5secB
/-- C5 input, the first 64 image bytes. -/
def c5base : List Nat := c5p0hdr ++ le32 (adler32 c5payload) ++ c5payload

/-- C5 input: a v1v2 image whose bank 0 is valid (empty sections,
generation 5) and whose bank 1 (16 zero bytes) fails to parse, so it is
cloned from bank 0. -/
def c5img : Bytes := ⟨65552, fun i => if i < 64 then c5base.getD i 0 else 0⟩

/-- The partition parsed from bank 0 of `c5img`. -/
def c5part : V12.Partition :=
  ⟨⟨V12.nvramName, 4096, 0x5A⟩, 5, ⟨⟨V12.commonName, 1, 0x70⟩, []⟩,
   ⟨⟨V12.systemName, 1, 0x70⟩, []⟩⟩

/-- The container parsed from `c5img` (bank 1 is the clone; ties in
generation make bank 1 active). -/
def c5nv : V12.Nvram := ⟨c5part, c5part, 1⟩


/-- A v3 store header with size 0x10000, version 1, both quotas
0xFFFFFFFF, and the given generation bytes (used by C1/C9). -/
def v3hdrGen (gen : List Nat) : List Nat :=
  V3.storeSignature ++ [0, 0, 1, 0] ++ gen ++ [0, 0, 1, 0] ++
  le32 4294967295 ++ le32 4294967295

/-- C9 input: bank 0 a valid empty store (generation 1), bank 1
zero-filled (Invalid, hence non-Empty). -/
def c9img : Bytes :=
  ⟨131072, fun i =>
    if i < 24 then (v3hdrGen [1, 0, 0, 0]).getD i 0
    else if i < 65536 then 0xFF else 0⟩

/-- The partition parsed from bank 0 of `c9img`. -/
def c9part : V3.Partition :=
  ⟨⟨V3.storeSignature, 65536, 1, 0, 0, 1, 4294967295, 4294967295⟩, []⟩

/-- The container parsed from `c9img`. -/
def c9parsed : V3.Nvram :=
  ⟨V3.setSlot (V3.setSlot (fun _ => .Empty) 0 (.Valid c9part)) 1 .Invalid, 2, 0⟩

/-- A 22000-byte value: three records of this size overflow a bank. -/
def bigVal : List Nat := List.replicate 22000 0

/-- The record `insert_variable k bigVal Common` appends (its
`data_size` written as the literal 22000 = `bigVal.length`). -/
def bigRec (k : List Nat) : List Nat × V3.Variable :=
  (k, ⟨⟨V3.VAR_ADDED, 0, 2, 22000, V3.commonGuid, crc32 bigVal⟩, k, bigVal⟩)

/-- `c9parsed` after inserting three oversized variables through
`active_part_mut` (the partition that `apply` then sees); shown
reachable by the inserts in `c9mutPart_reachable`. -/
def c9mutPart : V3.Partition :=
  ⟨c9part.header, [bigRec [107], bigRec [108], bigRec [109]]⟩

/-- The C9 container right before `apply`. -/
def c9mut : V3.Nvram :=
  ⟨V3.setSlot c9parsed.partitions 0 (.Valid c9mutPart), 2, 0⟩

/-- The C9 container after the failing `apply`: active advanced, slot 1
replaced by the compacted partition, generation bumped. -/
def c9after : V3.Nvram :=
  ⟨V3.setSlot c9mut.partitions 1 (.Valid c9mutPart.cloneActive), 2, 1⟩

/-- C1-counterexample input: like `c9img` but with generation
0xFFFFFFFF in bank 0. -/
def c1img : Bytes :=
  ⟨131072, fun i =>
    if i < 24 then (v3hdrGen [255, 255, 255, 255]).getD i 0
    else if i < 65536 then 0xFF else 0⟩

/-- The partition parsed from bank 0 of `c1img`. -/
def c1part : V3.Partition :=
  ⟨⟨V3.storeSignature, 65536, 4294967295, 0, 0, 1, 4294967295, 4294967295⟩, []⟩

/-- The container parsed from `c1img`. -/
def c1parsed : V3.Nvram :=
  ⟨V3.setSlot (V3.setSlot (fun _ => .Empty) 0 (.Valid c1part)) 1 .Invalid, 2, 0⟩

/-- `c1parsed`'s active partition after inserting three oversized
variables (shown reachable in `c1mutPart_reachable`). -/
def c1mutPart : V3.Partition :=
  ⟨c1part.header, [bigRec [107], bigRec [108], bigRec [109]]⟩

/-- The C1-counterexample container right before `apply`. -/
def c1mut : V3.Nvram :=
  ⟨V3.setSlot c1parsed.partitions 0 (.Valid c1mutPart), 2, 0⟩

/-- The C1-counterexample container after `apply`. -/
def c1after : V3.Nvram :=
  ⟨V3.setSlot c1mut.partitions 1 (.Valid c1mutPart.cloneActive), 2, 1⟩

/-- The byte image of a list of v1v2 records (`key=value NUL` each). -/
def v12recsBytes (recs : List (List Nat × List Nat)) : List Nat :=
  recs.flatMap (fun r => r.1 ++ [61] ++ r.2 ++ [0])

/-- The kind a v1v2 section name assigns to its records. -/
def v12typOf (hdrName : List Nat) : VarType :=
  if hdrName = [99, 111, 109, 109, 111, 110] then VarType.Common else VarType.System

/-- The map built by the v1v2 record loop from a record list. -/
def v12foldRecs (hdrName : List Nat) (vals : List (List Nat × V12.Variable))
    (recs : List (List Nat × List Nat)) : List (List Nat × V12.Variable) :=
  recs.foldl (fun m r => V12.mapInsert m r.1 ⟨r.1, r.2, v12typOf hdrName⟩) vals

/-- Canonicity of one v1v2 record: the key holds no NUL and no `'='`,
the value holds no NUL, and all bytes are byte-valued. -/
def v12recWF (r : List Nat × List Nat) : Prop :=
  (0 : Nat) ∉ r.1 ∧ (61 : Nat) ∉ r.1 ∧ (0 : Nat) ∉ r.2 ∧
  (∀ x ∈ r.1, x < 256) ∧ (∀ x ∈ r.2, x < 256)

/-- C8 input: a common-section header declaring size 1 unit (16 bytes,
header only) followed by the record `a=b NUL`, which lies entirely
beyond the declared size. -/
def c8buf : Bytes :=
  bytesOfList (V12.CHRPHeader.serialize ⟨V12.commonName, 1, 0x70⟩ ++ [97, 61, 98, 0])

/-- The section parsed from `c8buf`. -/
def c8sec : V12.Section :=
  ⟨⟨V12.commonName, 1, 0x70⟩, [([97], ⟨[97], [98], VarType.Common⟩)]⟩


/-- The byte image of one canonical v3 bank: the `some` payload of
`Partition.serialize`, defined whenever the content fits the declared
size. -/
def v3partBytes (p : V3.Partition) : List Nat :=
  let body := p.header.serialize ++ p.values.flatMap (fun e => e.2.serialize)
  body ++ List.replicate (p.header.size - body.length) 0xFF

/-- The byte list a canonical v1v2 section serializes to (the `ok`
payload of `Section::serialize`). -/
def v12secBytes (s : V12.Section) : List Nat :=
  let body := s.header.serialize ++
    s.values.flatMap (fun e => e.2.key ++ [61] ++ e.2.value ++ [0])
  body ++ List.replicate (s.sizeBytes - body.length) 0

/-- The byte list a canonical v1v2 partition serializes to (the `ok`
payload of `Partition::serialize`). -/
def v12partBytes (p : V12.Partition) : List Nat :=
  let payload := le32 (p.generation % 4294967296) ++ List.replicate 8 0 ++
    v12secBytes p.common ++ v12secBytes p.system
  p.header.serialize ++ le32 (adler32 payload) ++ payload

/-- Canonicity of a v1v2 section named `nm`: matching map entries of
the right kind, canonical record bytes, distinct keys, and content
strictly below the declared size (so at least one zero pad byte
terminates the record run). -/
def v12secWF (s : V12.Section) (nm : List Nat) : Prop :=
  s.header.name = nm ∧ s.header.signature < 256 ∧ s.header.size < 65536 ∧
  (∀ e ∈ s.values, e.1 = e.2.key ∧ e.2.typ = v12typOf nm ∧
    v12recWF (e.2.key, e.2.value)) ∧
  (s.values.map (fun e => e.1)).Nodup ∧
  16 + (s.values.flatMap (fun e => e.2.key ++ [61] ++ e.2.value ++ [0])).length <
    s.sizeBytes

/-- Canonicity of a v1v2 partition: "nvram" CHRP header, in-range
fields, a canonical common section and a canonical system section. -/
def v12partWF (p : V12.Partition) : Prop :=
  p.header.name = V12.nvramName ∧ p.header.signature < 256 ∧
  p.header.size < 65536 ∧ p.generation < 4294967296 ∧
  v12secWF p.common V12.commonName ∧ v12secWF p.system V12.systemName


/-- C2 counterexample input, header part: a valid v3 store header
whose declared store size is 0 — smaller than the 24 header bytes any
serialization of the bank emits. -/
def c2hdr : V3.StoreHeader := ⟨V3.storeSignature, 0, 1, 0, 0, 1, 0, 0⟩

/-- C2 counterexample input: one 0x10000-byte v3 bank holding `c2hdr`
followed by 0xFF padding.  It parses successfully (`StoreHeader::parse`
never validates the size field). -/
def c2img : Bytes := ⟨65536, fun i => if i < 24 then c2hdr.serialize.getD i 0 else 255⟩

/-- The container parsed from `c2img`. -/
def c2nv : V3.Nvram :=
  ⟨V3.setSlot (fun _ => V3.Slot.Empty) 0 (V3.Slot.Valid ⟨c2hdr, []⟩), 1, 0⟩

/-! # Theorems -/

set_option maxRecDepth 16384

/-! ## C7 — the escape decoder -/

/-- The claim's zero-count reading is false: on `0xFF 0x00` the decoder
does not emit zero bytes — the u8 `remaining` counter underflows and
256 fill bytes come out. -/
theorem c7_counterexample :
    unescape [0xFF, 0x00] = List.replicate 256 0 ∧ unescape [0xFF, 0x00] ≠ [] := by
  constructor
  · decide
  · decide

/-- C7 (amended): every byte other than 0xFF passes through unchanged;
`0xFF c` emits `c & 0x7F` copies of the fill byte (0x00 when
`c & 0x80 = 0`, else 0xFF) when `c & 0x7F ≠ 0`, but a zero count
underflows the u8 remaining counter and emits 256 fill bytes (release
wrapping; debug builds panic); input ending right after 0xFF ends the
stream. -/
theorem c7_unescape_spec (c : Nat) (bs : List Nat) :
    (∀ b, b < 256 → b ≠ 0xFF → unescape (b :: bs) = b :: unescape bs) ∧
    unescape [0xFF] = [] ∧
    (c < 256 → c &&& 0x7F ≠ 0 →
      unescape (0xFF :: c :: bs) =
        List.replicate (c &&& 0x7F) (if c &&& 0x80 = 0 then 0 else 0xFF) ++ unescape bs) ∧
    (c < 256 → c &&& 0x7F = 0 →
      unescape (0xFF :: c :: bs) =
        List.replicate 256 (if c &&& 0x80 = 0 then 0 else 0xFF) ++ unescape bs) := by
  refine ⟨?_, by simp [unescape], ?_, ?_⟩
  · intro b hb hne
    rw [unescape.eq_def]
    simp only [Nat.mod_eq_of_lt hb]
    rw [if_pos hne]
  · intro hc hk
    have hle : c &&& 127 ≤ 127 := Nat.and_le_right
    rw [unescape.eq_def]
    simp only [Nat.mod_eq_of_lt hc]
    norm_num
    omega
  · intro hc hk
    have hle : c &&& 127 ≤ 127 := Nat.and_le_right
    rw [unescape.eq_def]
    simp only [Nat.mod_eq_of_lt hc]
    norm_num
    omega

/-! ## C4 — v3 insert/remove tombstoning -/

/-- The per-entry map of `Partition.invalidate`. -/
theorem invalidate_values (p : V3.Partition) (key : List Nat) (typ : VarType) :
    (p.invalidate key typ).values = p.values.map (fun e =>
      if e.1 = key ∧ e.2.typ = typ ∧ e.2.header.state = V3.VAR_ADDED then
        (e.1, { e.2 with header := { e.2.header with
          state := e.2.header.state &&& V3.VAR_DELETED &&& V3.VAR_IN_DELETED_TRANSITION } })
      else e) := rfl

/-- C4: after `insert_variable` or `remove_variable`, every record for
the touched (key, kind) that previously had state VAR_ADDED (0x7F) has
state 0x7C; after insert, exactly one record for (key, kind) has state
VAR_ADDED, namely the newly appended last record of the log. -/
theorem c4_tombstone (p : V3.Partition) (key value : List Nat) (typ : VarType) :
    (∀ (i : Nat) (e : List Nat × V3.Variable), p.values[i]? = some e →
      e.1 = key → e.2.typ = typ → e.2.header.state = V3.VAR_ADDED →
      ∃ e' : List Nat × V3.Variable,
        (p.insertVariable key value typ).values[i]? = some e' ∧
        (p.removeVariable key typ).values[i]? = some e' ∧
        e'.2.header.state = 0x7C) ∧
    (∀ (j : Nat) (e : List Nat × V3.Variable),
      (p.insertVariable key value typ).values[j]? = some e →
      ((e.1 = key ∧ e.2.typ = typ ∧ e.2.header.state = V3.VAR_ADDED) ↔
        j = p.values.length)) ∧
    (p.insertVariable key value typ).values[p.values.length]? =
      some (key, V3.freshVar key value typ) := by
  have hlen : (p.invalidate key typ).values.length = p.values.length := by
    simp [invalidate_values]
  have hins : (p.insertVariable key value typ).values =
      (p.invalidate key typ).values ++ [(key, V3.freshVar key value typ)] := rfl
  have hlast : (p.insertVariable key value typ).values[p.values.length]? =
      some (key, V3.freshVar key value typ) := by
    rw [hins, List.getElem?_append_right (by omega), hlen]
    simp
  refine ⟨?_, ?_, hlast⟩
  · intro i e hie hk ht hs
    have hi : i < p.values.length := by
      by_contra hge
      rw [List.getElem?_eq_none (by omega)] at hie
      exact Option.noConfusion hie
    have he : p.values[i] = e := by
      have h2 := List.getElem?_eq_getElem hi
      rw [hie] at h2
      exact (Option.some.injEq _ _).mp h2.symm
    have hmap : (p.invalidate key typ).values[i]? =
        some (e.1, { e.2 with header := { e.2.header with state := 0x7C } }) := by
      rw [invalidate_values, List.getElem?_map, List.getElem?_eq_getElem hi]
      simp only [Option.map_some, Option.map_some', he]
      rw [if_pos ⟨hk, ht, hs⟩]
      rw [hs]
      rfl
    refine ⟨(e.1, { e.2 with header := { e.2.header with state := 0x7C } }), ?_, hmap, rfl⟩
    rw [hins, List.getElem?_append_left (by omega)]
    exact hmap
  · intro j e hje
    constructor
    · rintro ⟨hk, ht, hs⟩
      by_contra hne
      rcases Nat.lt_trichotomy j p.values.length with hj | hj | hj
      · rw [hins, List.getElem?_append_left (by omega), invalidate_values,
          List.getElem?_map, List.getElem?_eq_getElem hj] at hje
        simp only [Option.map_some', Option.some.injEq] at hje
        by_cases hm : p.values[j].1 = key ∧ p.values[j].2.typ = typ ∧
            p.values[j].2.header.state = V3.VAR_ADDED
        · rw [if_pos hm] at hje
          rw [← hje] at hs
          simp only at hs
          rw [hm.2.2] at hs
          exact absurd hs (by decide)
        · rw [if_neg hm] at hje
          rw [← hje] at hk ht hs
          exact hm ⟨hk, ht, hs⟩
      · exact hne hj
      · rw [hins, List.getElem?_eq_none (by simp [hlen]; omega)] at hje
        exact Option.noConfusion hje
    · intro hj
      subst hj
      rw [hlast] at hje
      have he := (Option.some.injEq _ _).mp hje
      rw [← he]
      refine ⟨rfl, ?_, rfl⟩
      cases typ <;> simp [V3.Variable.typ, V3.freshVar, V3.guidOf] <;> decide

/-- Witness for `c4_tombstone`: a one-record partition whose live
record is superseded by an insert. -/
theorem c4_tombstone_witness :
    (∃ e', ((⟨⟨V3.storeSignature, 65536, 1, 0, 0, 1, 100, 100⟩,
        [([5], ⟨⟨V3.VAR_ADDED, 0, 2, 1, V3.commonGuid, crc32 [9]⟩, [5], [9]⟩)]⟩ :
        V3.Partition).insertVariable [5] [7] VarType.Common).values[0]? = some e' ∧
      (((⟨⟨V3.storeSignature, 65536, 1, 0, 0, 1, 100, 100⟩,
        [([5], ⟨⟨V3.VAR_ADDED, 0, 2, 1, V3.commonGuid, crc32 [9]⟩, [5], [9]⟩)]⟩ :
        V3.Partition).removeVariable [5] VarType.Common).values[0]? = some e' ∧
      e'.2.header.state = 0x7C)) := by
  have h := (c4_tombstone
    ⟨⟨V3.storeSignature, 65536, 1, 0, 0, 1, 100, 100⟩,
     [([5], ⟨⟨V3.VAR_ADDED, 0, 2, 1, V3.commonGuid, crc32 [9]⟩, [5], [9]⟩)]⟩
    [5] [7] VarType.Common).1 0
    ([5], ⟨⟨V3.VAR_ADDED, 0, 2, 1, V3.commonGuid, crc32 [9]⟩, [5], [9]⟩)
    (by rfl) rfl (by decide) rfl
  obtain ⟨e', h1, h2, h3⟩ := h
  exact ⟨e', h1, h2, h3⟩

/-- Witness for `c7_unescape_spec` at concrete inputs. -/
theorem c7_unescape_spec_witness :
    unescape [7, 9] = 7 :: unescape [9] ∧
    unescape [0xFF, 0x83, 5] = List.replicate 3 0xFF ++ unescape [5] ∧
    unescape [0xFF, 0x00, 5] = List.replicate 256 0 ++ unescape [5] := by
  refine ⟨(c7_unescape_spec 0x83 [9]).1 7 (by decide) (by decide), ?_, ?_⟩
  · have h := (c7_unescape_spec 0x83 [5]).2.2.1 (by decide) (by decide)
    simpa using h
  · have h := (c7_unescape_spec 0x00 [5]).2.2.2 (by decide) (by decide)
    simpa using h


/-! ## C3 — v3 active-bank election (code bug) -/

/-- C3 failing input: `c3img` parses successfully (bank 1 is the only
Valid bank, generation 0), yet `active` is left at 0, which refers to
the Invalid bank 0 — because the `max_gen` accumulator starts at 0, a
Valid bank whose generation is 0 can never be elected.  A later
`active_part()` unwraps the Invalid slot and panics. -/
theorem c3_active_points_at_invalid_bank :
    V3.Nvram.parse c3img = .ok c3nv ∧
    c3nv.active = 0 ∧
    c3nv.partitions 0 = .Invalid ∧
    c3nv.partitions 1 = .Valid c3part ∧
    c3part.generation = 0 :=
  ⟨rfl, rfl, rfl, rfl, rfl⟩

/-! ## C10 — v3 bank parsing can panic -/

/-- C10: there is a 0x10000-byte bank whose store header parses but
where the record walk panics instead of returning `ParseError`: with
`name_size = 0` the key slice is `&nvr[60..59]`, an inverted range. -/
theorem c10_parse_panics :
    V3.Partition.parse c10bank = .fatal ∧
    V3.StoreHeader.parse (bslice c10bank 0 24) =
      .ok ⟨V3.storeSignature, 65536, 1, 0, 0, 1, 0, 0⟩ :=
  ⟨rfl, rfl⟩

/-! ## C5 — insert followed by get -/

/-- The claim fails on v1v2: after inserting the value `[0xFF]`, the
returned variable's `value()` runs the escape decoder over the stored
bytes, and a lone 0xFF decodes to the empty sequence, not to `[0xFF]`. -/
theorem c5_counterexample :
    V12.Nvram.parse c5img = .ok c5nv ∧
    ((c5nv.activePart.insertVariable [97] [255] VarType.Common).getVariable
      [97]).map V12.Variable.valueOut = some [] ∧
    ([] : List Nat) ≠ [255] :=
  ⟨rfl, rfl, by decide⟩


/-- The escape decoder is the identity on byte sequences that contain
no 0xFF. -/
theorem unescape_eq_self (l : List Nat) (hb : ∀ x ∈ l, x < 256) (hf : 0xFF ∉ l) :
    unescape l = l := by
  induction l with
  | nil => rfl
  | cons a t ih =>
    have ha : a < 256 := hb a (List.mem_cons_self a t)
    have hane : a ≠ 0xFF := fun h => hf (h ▸ List.mem_cons_self a t)
    rw [unescape.eq_def]
    simp only [Nat.mod_eq_of_lt ha]
    rw [if_pos hane]
    rw [ih (fun x hx => hb x (List.mem_cons_of_mem a hx))
        (fun hx => hf (List.mem_cons_of_mem a hx))]

/-- Inserting under a key and then looking the key up yields the
inserted value (association-list model of the `HashMap`). -/
theorem mapGet_mapInsert (m : List (List Nat × V12.Variable)) (k : List Nat)
    (v : V12.Variable) : V12.mapGet (V12.mapInsert m k v) k = some v := by
  unfold V12.mapInsert V12.mapGet
  by_cases hany : m.any (fun e => e.1 == k)
  · rw [if_pos hany]
    induction m with
    | nil => simp at hany
    | cons e t ih =>
      by_cases hek : e.1 = k
      · simp [List.find?, hek]
      · have ht : t.any (fun x => x.1 == k) := by
          simp only [List.any_cons] at hany
          rcases Bool.or_eq_true_iff.mp hany with h | h
          · exact absurd (by simpa using h) hek
          · exact h
        simp only [List.map_cons, if_neg hek, List.find?]
        rw [show (e.1 == k) = false by simpa using hek]
        exact ih ht
  · rw [if_neg hany]
    have hnone : m.find? (fun e => e.1 == k) = none := by
      rw [List.find?_eq_none]
      intro x hx
      simp only [List.any_eq_true] at hany
      push_neg at hany
      simpa using hany x hx
    rw [List.find?_append, hnone]
    simp

/-- After `invalidate`, no record matches (key, kind) with state
VAR_ADDED. -/
theorem find?_invalidate (p : V3.Partition) (key : List Nat) (typ : VarType) :
    (p.invalidate key typ).values.find? (fun e =>
      e.1 == key && e.2.typ == typ && e.2.header.state == V3.VAR_ADDED) = none := by
  rw [List.find?_eq_none]
  intro x hx
  rw [invalidate_values] at hx
  obtain ⟨e, _, hfe⟩ := List.mem_map.mp hx
  by_cases hm : e.1 = key ∧ e.2.typ = typ ∧ e.2.header.state = V3.VAR_ADDED
  · rw [if_pos hm] at hfe
    subst hfe
    simp only [Bool.and_eq_true, beq_iff_eq]
    rintro ⟨-, hst⟩
    rw [hm.2.2] at hst
    revert hst
    decide
  · rw [if_neg hm] at hfe
    subst hfe
    simp only [Bool.and_eq_true, beq_iff_eq, not_and]
    intro h1 h2
    exact hm ⟨h1.1, h1.2, h2⟩

/-- v3 `get_variable` after `insert_variable` returns the fresh record. -/
theorem getVariable_insertVariable (p : V3.Partition) (key value : List Nat)
    (typ : VarType) :
    (p.insertVariable key value typ).getVariable key typ =
      some (V3.freshVar key value typ) := by
  show (((p.invalidate key typ).values ++ [(key, V3.freshVar key value typ)]).find?
    _).map _ = _
  rw [List.find?_append, find?_invalidate]
  have htyp : (V3.freshVar key value typ).typ = typ := by
    cases typ <;> simp [V3.Variable.typ, V3.freshVar, V3.guidOf] <;> decide
  have hst : (V3.freshVar key value typ).header.state = V3.VAR_ADDED := rfl
  simp [List.find?, htyp, hst]

/-- C5 (amended): for v3 the claim holds with no side condition — after
`insert_variable(key, value, kind)`, `get_variable(key, kind)` returns
a variable whose value is `value`.  For v1v2 it holds provided the
value contains no 0xFF byte (otherwise `value()` escape-decodes the
stored bytes) and, because the v1v2 `get_variable` ignores the kind and
searches the common section first, provided the kind is Common or the
key is absent from the common section. -/
theorem c5_insert_get (p3 : V3.Partition) (p12 : V12.Partition)
    (key value : List Nat) (typ : VarType) :
    (((p3.insertVariable key value typ).getVariable key typ).map
      V3.Variable.value = some value) ∧
    ((∀ x ∈ value, x < 256) → 0xFF ∉ value →
      (typ = VarType.Common ∨ V12.mapGet p12.common.values key = none) →
      ((p12.insertVariable key value typ).getVariable key).map
        V12.Variable.valueOut = some value) := by
  constructor
  · rw [getVariable_insertVariable]
    rfl
  · intro hb hf hside
    have hdec : V12.Variable.valueOut ⟨key, value, typ⟩ = value :=
      unescape_eq_self value hb hf
    cases typ with
    | Common =>
      show ((match V12.mapGet (V12.mapInsert p12.common.values key
          ⟨key, value, VarType.Common⟩) key with
        | some v => some v
        | none => V12.mapGet p12.system.values key).map V12.Variable.valueOut = _)
      rw [mapGet_mapInsert]
      simpa using hdec
    | System =>
      rcases hside with hc | hc
      · exact absurd hc (by decide)
      · show ((match V12.mapGet p12.common.values key with
          | some v => some v
          | none => V12.mapGet (V12.mapInsert p12.system.values key
              ⟨key, value, VarType.System⟩) key).map V12.Variable.valueOut = _)
        rw [hc, mapGet_mapInsert]
        simpa using hdec

/-- Witness for `c5_insert_get`: a concrete empty v3 partition and a
concrete v1v2 partition, inserting `[1,2]` under key `[5]`. -/
theorem c5_insert_get_witness :
    ((((⟨⟨V3.storeSignature, 65536, 1, 0, 0, 1, 100, 100⟩, []⟩ :
        V3.Partition).insertVariable [5] [1, 2] VarType.Common).getVariable
        [5] VarType.Common).map V3.Variable.value = some [1, 2]) ∧
    ((((⟨⟨V12.nvramName, 4096, 0x5A⟩, 5, ⟨⟨V12.commonName, 1, 0x70⟩, []⟩,
        ⟨⟨V12.systemName, 1, 0x70⟩, []⟩⟩ :
        V12.Partition).insertVariable [5] [1, 2] VarType.Common).getVariable
        [5]).map V12.Variable.valueOut = some [1, 2]) := by
  have h := c5_insert_get ⟨⟨V3.storeSignature, 65536, 1, 0, 0, 1, 100, 100⟩, []⟩
    ⟨⟨V12.nvramName, 4096, 0x5A⟩, 5, ⟨⟨V12.commonName, 1, 0x70⟩, []⟩,
     ⟨⟨V12.systemName, 1, 0x70⟩, []⟩⟩ [5] [1, 2] VarType.Common
  exact ⟨h.1, h.2 (by decide) (by decide) (Or.inl rfl)⟩


/-! ## C2 — v3 apply, in-place case -/

/-- C2 (amended): when the active partition meets both kind quotas,
`total_used ≤ 0x10000`, and its serialization succeeds (the content
fits the declared store size, so the padding subtraction does not
underflow), `apply` leaves the container untouched (active bank index
and generation unchanged), never calls `erase_if_needed`, and issues
the single `write_all` at offset `active * 0x10000`.  Without the
serialization proviso the process aborts before any write (see the
counterexample). -/
theorem c2_apply_in_place (nv : V3.Nvram) (p : V3.Partition) (bytes : List Nat)
    (wfail : Bool)
    (hap : nv.partitions nv.active = .Valid p)
    (hsys : p.systemUsed ≤ p.header.system_size)
    (hcom : p.commonUsed ≤ p.header.common_size)
    (htot : p.totalUsed ≤ 65536)
    (hser : p.serialize = some bytes) :
    nv.apply wfail = some (nv, [.write (nv.active * 65536) bytes],
      if wfail then .error .applyError else .ok ()) := by
  unfold V3.Nvram.apply
  rw [hap]
  dsimp only
  rw [if_neg (by omega), if_neg (by omega), if_pos htot, hser]

/-- C2: the claim as stated is false without the serialization proviso.
`c2img` parses into a container whose single Valid bank declares store
size 0; both kind quotas hold and `total_used = 24 ≤ 0x10000`, yet
`apply` issues no `write_all` at all: `Partition::serialize` computes
the pad count `header.size() - my_size` = `0 - 24`, which underflows
(debug panic; release wrap and abort), modelled as `none`. -/
theorem c2_counterexample :
    V3.Nvram.parse c2img = .ok c2nv ∧
    c2nv.partitions c2nv.active = .Valid ⟨c2hdr, []⟩ ∧
    (⟨c2hdr, []⟩ : V3.Partition).systemUsed ≤ c2hdr.system_size ∧
    (⟨c2hdr, []⟩ : V3.Partition).commonUsed ≤ c2hdr.common_size ∧
    (⟨c2hdr, []⟩ : V3.Partition).totalUsed ≤ 65536 ∧
    (⟨c2hdr, []⟩ : V3.Partition).serialize = none ∧
    c2nv.apply false = none :=
  ⟨rfl, rfl, by decide, by decide, by decide, rfl, rfl⟩

/-- Witness for `c2_apply_in_place`: the parsed C9 container before any
mutation fits in place and is written back at offset 0. -/
theorem c2_apply_in_place_witness :
    c9parsed.apply false = some (c9parsed,
      [.write (c9parsed.active * 65536) (v3partBytes c9part)], .ok ()) :=
  c2_apply_in_place c9parsed c9part (v3partBytes c9part) false rfl (by decide)
    (by decide) (by decide) rfl

/-! ## C1 — v3 apply, rotation case -/

/-- Erase events of a trace. -/
def eraseCount (evs : List V3.WEvent) : Nat :=
  (evs.filter (fun e => match e with | .erase _ _ => true | _ => false)).length

/-- The full `apply` equation in the rotation case whose compacted log
still overflows the bank (shared by several claims below). -/
theorem apply_overflow_eq (nv : V3.Nvram) (p : V3.Partition) (wfail : Bool)
    (hap : nv.partitions nv.active = .Valid p)
    (hcount : nv.partition_count ≠ 0)
    (hsys : p.systemUsed ≤ p.header.system_size)
    (hcom : p.commonUsed ≤ p.header.common_size)
    (htot : 65536 < p.totalUsed)
    (hbig : 65536 < p.cloneActive.totalUsed) :
    nv.apply wfail = some
      (⟨V3.setSlot nv.partitions ((nv.active + 1) % nv.partition_count)
          (.Valid p.cloneActive), nv.partition_count,
        (nv.active + 1) % nv.partition_count⟩,
       (if (nv.partitions ((nv.active + 1) % nv.partition_count)).isEmpty then []
        else [.erase (((nv.active + 1) % nv.partition_count) * 65536) 65536]),
       .error .sectionTooBig) := by
  unfold V3.Nvram.apply
  rw [hap]
  dsimp only
  rw [if_neg (by omega), if_neg (by omega), if_neg (by omega), if_neg hcount,
    if_pos hbig]

/-- The full `apply` equation in the rotation case whose compacted log
fits (shared helper). -/
theorem apply_rotate_ok_eq (nv : V3.Nvram) (p : V3.Partition) (bytes : List Nat)
    (wfail : Bool)
    (hap : nv.partitions nv.active = .Valid p)
    (hcount : nv.partition_count ≠ 0)
    (hsys : p.systemUsed ≤ p.header.system_size)
    (hcom : p.commonUsed ≤ p.header.common_size)
    (htot : 65536 < p.totalUsed)
    (hfit : ¬ 65536 < p.cloneActive.totalUsed)
    (hser : p.cloneActive.serialize = some bytes) :
    nv.apply wfail = some
      (⟨V3.setSlot nv.partitions ((nv.active + 1) % nv.partition_count)
          (.Valid p.cloneActive), nv.partition_count,
        (nv.active + 1) % nv.partition_count⟩,
       ((if (nv.partitions ((nv.active + 1) % nv.partition_count)).isEmpty then []
         else [.erase (((nv.active + 1) % nv.partition_count) * 65536) 65536]) ++
        [.write (((nv.active + 1) % nv.partition_count) * 65536) bytes]),
       if wfail then .error .applyError else .ok ()) := by
  unfold V3.Nvram.apply
  rw [hap]
  dsimp only
  rw [if_neg (by omega), if_neg (by omega), if_neg (by omega), if_neg hcount,
    if_neg hfit, hser]

/-- C1 (amended): when the active partition meets both kind quotas but
`total_used > 0x10000`, and serializing the compacted bank does not
abort in case it is reached (the write path serializes the compacted
bank, whose padding subtraction underflows and aborts when the content
exceeds the declared store size), `apply` rotates the active index to
`(active+1) mod partition_count`, installs there the compaction of the
old active bank — exactly the records whose state was VAR_ADDED, in log
order — with generation `(old + 1) mod 2^32` (the u32 increment wraps;
it equals old + 1 whenever old < 0xFFFFFFFF), and `erase_if_needed` is
invoked exactly once if and only if the destination slot was not Empty
before the call. -/
theorem c1_apply_rotation (nv : V3.Nvram) (p : V3.Partition) (wfail : Bool)
    (hap : nv.partitions nv.active = .Valid p)
    (hcount : 0 < nv.partition_count)
    (hsys : p.systemUsed ≤ p.header.system_size)
    (hcom : p.commonUsed ≤ p.header.common_size)
    (htot : p.totalUsed > 65536)
    (hser : p.cloneActive.totalUsed ≤ 65536 → p.cloneActive.serialize ≠ none) :
    ∃ nv' evs res, nv.apply wfail = some (nv', evs, res) ∧
      nv'.active = (nv.active + 1) % nv.partition_count ∧
      nv'.partition_count = nv.partition_count ∧
      nv'.partitions nv'.active = .Valid p.cloneActive ∧
      p.cloneActive.values =
        p.values.filter (fun v => v.2.header.state = V3.VAR_ADDED) ∧
      p.cloneActive.header.generation = (p.header.generation + 1) % 4294967296 ∧
      eraseCount evs =
        (if (nv.partitions ((nv.active + 1) % nv.partition_count)).isEmpty
         then 0 else 1) := by
  by_cases hbig : 65536 < p.cloneActive.totalUsed
  · rw [apply_overflow_eq nv p wfail hap (by omega) hsys hcom htot hbig]
    refine ⟨_, _, _, rfl, rfl, rfl, by simp [V3.setSlot], rfl, rfl, ?_⟩
    cases hemp : (nv.partitions ((nv.active + 1) % nv.partition_count)).isEmpty <;>
      simp [hemp, eraseCount, List.filter]
  · obtain ⟨bytes, hby⟩ := Option.ne_none_iff_exists'.mp (hser (by omega))
    rw [apply_rotate_ok_eq nv p bytes wfail hap (by omega) hsys hcom htot hbig hby]
    refine ⟨_, _, _, rfl, rfl, rfl, by simp [V3.setSlot], rfl, rfl, ?_⟩
    cases hemp : (nv.partitions ((nv.active + 1) % nv.partition_count)).isEmpty <;>
      simp [hemp, eraseCount, List.filter]

/-- Two v3 partitions with equal fields are equal. -/
theorem partitionExt (a b : V3.Partition) (h1 : a.header = b.header)
    (h2 : a.values = b.values) : a = b := by
  cases a; cases b; cases h1; cases h2; rfl

/-- `bigRec` is exactly the record `insert_variable` appends for
`bigVal` under a one-byte key. -/
theorem bigRec_eq_freshVar (k : List Nat) (hk : k.length = 1) :
    bigRec k = (k, V3.freshVar k bigVal VarType.Common) := by
  have hlen : bigVal.length = 22000 := List.length_replicate 22000 0
  unfold bigRec V3.freshVar V3.guidOf
  rw [hk, hlen]

/-- `c9mutPart` is the partition obtained from the parsed `c9part` by
the three oversized inserts. -/
theorem c9mutPart_reachable :
    c9mutPart = ((c9part.insertVariable [107] bigVal VarType.Common).insertVariable
      [108] bigVal VarType.Common).insertVariable [109] bigVal VarType.Common := by
  apply partitionExt
  · rfl
  · show [bigRec [107], bigRec [108], bigRec [109]] = _
    rw [bigRec_eq_freshVar [107] rfl, bigRec_eq_freshVar [108] rfl,
      bigRec_eq_freshVar [109] rfl]
    rfl

/-- `c1mutPart` is the partition obtained from the parsed `c1part` by
the three oversized inserts. -/
theorem c1mutPart_reachable :
    c1mutPart = ((c1part.insertVariable [107] bigVal VarType.Common).insertVariable
      [108] bigVal VarType.Common).insertVariable [109] bigVal VarType.Common := by
  apply partitionExt
  · rfl
  · show [bigRec [107], bigRec [108], bigRec [109]] = _
    rw [bigRec_eq_freshVar [107] rfl, bigRec_eq_freshVar [108] rfl,
      bigRec_eq_freshVar [109] rfl]
    rfl

/-- The claim's `generation = old + 1` fails at generation 0xFFFFFFFF:
the u32 increment wraps to 0.  The container is parsed from `c1img`,
mutated by three oversized inserts (so both quotas hold and
`total_used > 0x10000`), and `apply` installs a compacted partition
whose generation is 0, not 0xFFFFFFFF + 1. -/
theorem c1_counterexample :
    V3.Nvram.parse c1img = .ok c1parsed ∧
    c1mutPart = ((c1part.insertVariable [107] bigVal VarType.Common).insertVariable
      [108] bigVal VarType.Common).insertVariable [109] bigVal VarType.Common ∧
    c1mut.partitions c1mut.active = .Valid c1mutPart ∧
    c1mutPart.systemUsed ≤ c1mutPart.header.system_size ∧
    c1mutPart.commonUsed ≤ c1mutPart.header.common_size ∧
    c1mutPart.totalUsed > 65536 ∧
    c1mut.apply false = some (c1after, [.erase 65536 65536], .error .sectionTooBig) ∧
    c1after.partitions 1 = .Valid c1mutPart.cloneActive ∧
    c1mutPart.cloneActive.header.generation = 0 ∧
    c1mutPart.header.generation = 4294967295 ∧
    (0 : Nat) ≠ 4294967295 + 1 := by
  have happ := apply_overflow_eq c1mut c1mutPart false rfl (by decide)
    (by decide) (by decide) (by decide) (by decide)
  refine ⟨rfl, c1mutPart_reachable, rfl, by decide, by decide, by decide, ?_,
    rfl, by decide, rfl, by decide⟩
  rw [happ]
  rfl

/-- Witness for `c1_apply_rotation`: the C9 container (generation 1,
Invalid destination slot) rotates to bank 1 and erases once. -/
theorem c1_apply_rotation_witness :
    ∃ nv' evs res, c9mut.apply false = some (nv', evs, res) ∧
      nv'.active = (c9mut.active + 1) % c9mut.partition_count ∧
      nv'.partition_count = c9mut.partition_count ∧
      nv'.partitions nv'.active = .Valid c9mutPart.cloneActive ∧
      c9mutPart.cloneActive.values =
        c9mutPart.values.filter (fun v => v.2.header.state = V3.VAR_ADDED) ∧
      c9mutPart.cloneActive.header.generation =
        (c9mutPart.header.generation + 1) % 4294967296 ∧
      eraseCount evs =
        (if (c9mut.partitions ((c9mut.active + 1) % c9mut.partition_count)).isEmpty
         then 0 else 1) :=
  c1_apply_rotation c9mut c9mutPart false rfl (by decide) (by decide) (by decide)
    (by decide) (fun h => absurd h (by decide))

/-! ## C9 — v3 apply is not atomic on the post-rotation capacity error -/

/-- C9: a parsed-then-mutated v3 container on which `apply` returns
SectionTooBig only after the in-memory state was already mutated: the
active index advanced to (0+1) mod 2, the destination slot was replaced
by the compacted partition with generation old + 1, and — the
destination being Invalid, not Empty — `erase_if_needed` was already
invoked.  The pre-call state is not restored. -/
theorem c9_apply_not_atomic :
    V3.Nvram.parse c9img = .ok c9parsed ∧
    c9mutPart = ((c9part.insertVariable [107] bigVal VarType.Common).insertVariable
      [108] bigVal VarType.Common).insertVariable [109] bigVal VarType.Common ∧
    c9mut.apply false = some (c9after, [.erase 65536 65536], .error .sectionTooBig) ∧
    c9after.active = 1 ∧
    c9after.partitions 1 = .Valid c9mutPart.cloneActive ∧
    c9mutPart.cloneActive.header.generation = c9part.header.generation + 1 ∧
    (c9mut.partitions 1).isEmpty = false ∧
    eraseCount [V3.WEvent.erase 65536 65536] = 1 ∧
    c9after.active ≠ c9mut.active := by
  have happ := apply_overflow_eq c9mut c9mutPart false rfl (by decide)
    (by decide) (by decide) (by decide) (by decide)
  refine ⟨rfl, c9mutPart_reachable, ?_, rfl, rfl, by decide, rfl, rfl, by decide⟩
  rw [happ]
  rfl


/-! ## C8 — v1v2 section parsing ignores the declared size -/

/-- The declared-size part of the claim is false: `c8buf` declares a
section size of 16 bytes (1 unit, the header alone), yet the record
`a=b` starting at byte 16 — entirely beyond the declared size — is
included in the parsed section. -/
theorem c8_counterexample :
    V12.Section.parse c8buf = .ok c8sec ∧
    c8sec.sizeBytes = 16 ∧
    c8sec.values = [([97], ⟨[97], [98], VarType.Common⟩)] ∧
    c8buf.len = 20 :=
  ⟨rfl, rfl, rfl, rfl⟩

/-! ## Bytes / readsAs infrastructure -/

theorem readsAs_append (w : Bytes) (o : Nat) (a b : List Nat) :
    readsAs w o (a ++ b) ↔ readsAs w o a ∧ readsAs w (o + a.length) b := by
  constructor
  · intro h
    constructor
    · intro i hi
      have := h i (by simp; omega)
      rwa [List.getD_append _ _ _ _ hi] at this
    · intro i hi
      have := h (a.length + i) (by simp; omega)
      rw [show o + (a.length + i) = o + a.length + i by omega] at this
      rwa [List.getD_append_right a b 0 (a.length + i) (by omega),
        show a.length + i - a.length = i by omega] at this
  · rintro ⟨h1, h2⟩ i hi
    simp only [List.length_append] at hi
    by_cases hia : i < a.length
    · rw [List.getD_append _ _ _ _ hia]
      exact h1 i hia
    · rw [List.getD_append_right a b 0 i (by omega)]
      have := h2 (i - a.length) (by omega)
      rwa [show o + a.length + (i - a.length) = o + i by omega] at this

theorem readsAs_nil (w : Bytes) (o : Nat) : readsAs w o [] := by
  intro i hi
  simp at hi

theorem readsAs_head (w : Bytes) (o : Nat) (x : Nat) (l : List Nat)
    (h : readsAs w o (x :: l)) : w.byte o = x ∧ readsAs w (o + 1) l := by
  constructor
  · have := h 0 (by simp)
    simpa using this
  · intro i hi
    have := h (i + 1) (by simp; omega)
    rw [show o + (i + 1) = o + 1 + i by omega] at this
    simpa using this

theorem readBytes_of_readsAs (w : Bytes) (o : Nat) (l : List Nat)
    (h : readsAs w o l) : readBytes w o l.length = l := by
  apply List.ext_getElem
  · simp [readBytes]
  · intro i h1 h2
    simp only [readBytes, List.getElem_map, List.getElem_range]
    have := h i (by simpa [readBytes] using h1)
    rw [this]
    exact List.getD_eq_getElem l 0 h2

theorem readsAs_lt (w : Bytes) (o : Nat) (l : List Nat) (h : readsAs w o l) :
    ∀ x ∈ l, x < 256 := by
  intro x hx
  obtain ⟨i, hi, hgx⟩ := List.mem_iff_getElem.mp hx
  have := h i (by omega)
  rw [List.getD_eq_getElem l 0 hi, hgx] at this
  rw [← this]
  exact Nat.mod_lt _ (by omega)


/-! ## v1v2 parsing of serialized images -/

theorem chrpChecksumAdd_lt (a b : Nat) (ha : a < 256) (hb : b < 256) :
    chrpChecksumAdd a b < 256 := by
  show (if a + b ≥ 256 then (a + b) % 256 + 1 else (a + b) % 256) < 256
  split <;> omega

theorem chrpChecksum_lt (h : V12.CHRPHeader) (hn : ∀ x ∈ h.name, x < 256) :
    h.checksum < 256 := by
  have hfold : ∀ l : List Nat, (∀ x ∈ l, x < 256) → ∀ a, a < 256 →
      l.foldl chrpChecksumAdd a < 256 := by
    intro l
    induction l with
    | nil => intro _ a ha; simpa using ha
    | cons y t ih =>
      intro hl a ha
      simp only [List.foldl_cons]
      exact ih (fun x hx => hl x (List.mem_cons_of_mem y hx))
        _ (chrpChecksumAdd_lt a y ha (hl y (List.mem_cons_self y t)))
  unfold V12.CHRPHeader.checksum
  apply chrpChecksumAdd_lt
  · apply chrpChecksumAdd_lt
    · apply chrpChecksumAdd_lt
      · exact hfold h.name hn 0 (by omega)
      · exact Nat.mod_lt _ (by omega)
    · exact Nat.mod_lt _ (by omega)
  · exact Nat.mod_lt _ (by omega)

theorem readsAs_bytesOfList (l : List Nat) (hl : ∀ x ∈ l, x < 256) :
    readsAs (bytesOfList l) 0 l := by
  intro i hi
  show l.getD (0 + i) 0 % 256 = l.getD i 0
  rw [Nat.zero_add]
  rw [List.getD_eq_getElem l 0 hi]
  exact Nat.mod_eq_of_lt (hl _ (List.getElem_mem hi))

theorem rdU16_le16 (w : Bytes) (o n : Nat) (h : readsAs w o (le16 n))
    (hn : n < 65536) : rdU16 w o = n := by
  obtain ⟨h0, h1⟩ := readsAs_head w o _ _ h
  obtain ⟨h1, -⟩ := readsAs_head w (o + 1) _ _ h1
  unfold rdU16
  rw [h0, h1]
  omega

theorem rdU32_le32 (w : Bytes) (o n : Nat) (h : readsAs w o (le32 n))
    (hn : n < 4294967296) : rdU32 w o = n := by
  obtain ⟨h0, h⟩ := readsAs_head w o _ _ h
  obtain ⟨h1, h⟩ := readsAs_head w (o + 1) _ _ h
  obtain ⟨h2, h⟩ := readsAs_head w (o + 1 + 1) _ _ h
  obtain ⟨h3, -⟩ := readsAs_head w (o + 1 + 1 + 1) _ _ h
  unfold rdU32
  rw [h0, h1, show o + 2 = o + 1 + 1 by omega, h2,
    show o + 3 = o + 1 + 1 + 1 by omega, h3]
  omega

theorem rstrip_pad (name : List Nat) (k : Nat)
    (hlast : name.getLast? ≠ some 0) :
    rstripZeros (name ++ List.replicate k 0) = name := by
  unfold rstripZeros
  rw [List.reverse_append]
  have hdw : ∀ m (l : List Nat),
      List.dropWhile (fun x => x == 0) (List.replicate m 0 ++ l) =
      List.dropWhile (fun x => x == 0) l := by
    intro m
    induction m with
    | zero => intro l; simp
    | succ j ih =>
      intro l
      rw [List.replicate_succ, List.cons_append, List.dropWhile_cons]
      simpa using ih l
  rw [List.reverse_replicate, hdw]
  rcases hn : name.reverse with _ | ⟨x, t⟩
  · have : name = [] := by simpa using congrArg List.reverse hn
    simp [this]
  · have hx : name.getLast? = some x := by
      rw [List.getLast?_eq_head?_reverse, hn]
      rfl
    have hxne : x ≠ 0 := by
      intro h0
      exact hlast (h0 ▸ hx)
    rw [List.dropWhile_cons]
    simp only [beq_iff_eq, hxne, if_false]
    have := congrArg List.reverse hn
    simpa using this.symm

theorem bslice0_byte (w : Bytes) (b i : Nat) : (bslice w 0 b).byte i = w.byte i := by
  simp [bslice, Bytes.byte]

theorem bslice0_readBytes (w : Bytes) (b o n : Nat) :
    readBytes (bslice w 0 b) o n = readBytes w o n := by
  simp [readBytes, bslice, Bytes.byte]

theorem bslice0_rdU16 (w : Bytes) (b o : Nat) :
    rdU16 (bslice w 0 b) o = rdU16 w o := by
  simp [rdU16, bslice0_byte]

/-- CHRP header parse of a window holding a serialized header. -/
theorem chrp_parse_of_serialize (w : Bytes) (h : V12.CHRPHeader)
    (hw : readsAs w 0 h.serialize)
    (hname : h.name.length ≤ 12)
    (hlast : h.name.getLast? ≠ some 0)
    (hsig : h.signature < 256) (hsize : h.size < 65536) :
    V12.CHRPHeader.parse (bslice w 0 16) = .ok h := by
  obtain ⟨name, size, sig⟩ := h
  dsimp only at hname hlast hsig hsize
  simp only [V12.CHRPHeader.serialize] at hw
  rw [List.append_assoc, List.append_assoc] at hw
  rw [readsAs_append] at hw
  obtain ⟨hw01, hw2⟩ := hw
  simp only [List.length_cons, List.length_nil] at hw2
  norm_num at hw2
  rw [readsAs_append] at hw2
  obtain ⟨hwsz, hw4⟩ := hw2
  simp only [le16, List.length_cons, List.length_nil] at hw4
  norm_num at hw4
  obtain ⟨hb0, hw01⟩ := readsAs_head w 0 _ _ hw01
  obtain ⟨hb1, -⟩ := readsAs_head w (0 + 1) _ _ hw01
  unfold V12.CHRPHeader.parse
  rw [bslice0_byte, bslice0_byte, bslice0_rdU16, bslice0_readBytes]
  rw [hb0]
  rw [show (1 : Nat) = 0 + 1 by omega, hb1]
  rw [rdU16_le16 w 2 size hwsz hsize]
  have hrb : readBytes w 4 12 = name ++ List.replicate (12 - name.length) 0 := by
    have h12 : (name ++ List.replicate (12 - name.length) 0).length = 12 := by
      simp
      omega
    nth_rewrite 1 [show (12 : Nat) =
      (name ++ List.replicate (12 - name.length) 0).length from h12.symm]
    exact readBytes_of_readsAs w 4 _ hw4
  rw [hrb, rstrip_pad name _ hlast, Nat.mod_eq_of_lt hsig]
  rw [if_neg (by simp)]


theorem findZero_spec (w : Bytes) (l : List Nat) :
    ∀ (pos fuel : Nat), readsAs w pos l → 0 ∉ l →
    w.byte (pos + l.length) = 0 → l.length + 1 ≤ fuel →
    V12.findZero w fuel pos = some l.length := by
  induction l with
  | nil =>
    intro pos fuel _ _ hz hf
    obtain ⟨f, rfl⟩ : ∃ f, fuel = f + 1 := ⟨fuel - 1, by omega⟩
    unfold V12.findZero
    rw [if_pos (by simpa using hz)]
    simp
  | cons x t ih =>
    intro pos fuel hr h0 hz hf
    obtain ⟨f, rfl⟩ : ∃ f, fuel = f + 1 := ⟨fuel - 1, by omega⟩
    obtain ⟨hx, ht⟩ := readsAs_head w pos x t hr
    unfold V12.findZero
    rw [if_neg (by
      rw [hx]
      intro hx0
      exact h0 (hx0 ▸ List.mem_cons_self x t))]
    rw [ih (pos + 1) f ht (fun hm => h0 (List.mem_cons_of_mem x hm))
      (by simp only [List.length_cons] at hz
          rw [show pos + 1 + t.length = pos + (t.length + 1) by omega]
          exact hz)
      (by simp at hf; omega)]
    simp

theorem sliceFindIdx_mid (k v : List Nat) (hk : (61 : Nat) ∉ k) :
    sliceFindIdx (k ++ 61 :: v) 61 = some k.length := by
  unfold sliceFindIdx
  induction k with
  | nil => simp
  | cons x t ih =>
    rw [List.cons_append, List.findIdx?_cons]
    rw [show (x == 61) = false by
      simp only [beq_eq_false_iff_ne]
      intro hx
      exact hk (hx ▸ List.mem_cons_self x t)]
    simp only [Bool.false_eq_true, if_false]
    rw [List.findIdx?_succ]
    rw [ih (fun hm => hk (List.mem_cons_of_mem x hm))]
    rfl

/-- The v1v2 record loop on a window holding serialized records
followed by a terminating zero: it collects exactly those records (in
order, through the map-insert), never consulting any declared size. -/
theorem parseSecVars_spec (w : Bytes) (hdrName : List Nat)
    (recs : List (List Nat × List Nat)) :
    ∀ (o fuel : Nat) (vals : List (List Nat × V12.Variable)),
    readsAs w o (v12recsBytes recs) →
    (∀ r ∈ recs, (0 : Nat) ∉ r.1 ∧ (61 : Nat) ∉ r.1 ∧ (0 : Nat) ∉ r.2) →
    w.byte (o + (v12recsBytes recs).length) = 0 →
    o + (v12recsBytes recs).length < w.len →
    recs.length + 1 ≤ fuel →
    V12.parseSecVars w hdrName fuel o vals = v12foldRecs hdrName vals recs := by
  induction recs with
  | nil =>
    intro o fuel vals hr _ hz hlt hf
    obtain ⟨f, rfl⟩ : ∃ f, fuel = f + 1 := ⟨fuel - 1, by omega⟩
    unfold V12.parseSecVars
    rw [findZero_spec w [] o (w.len - o) (readsAs_nil w o)
      (by simp) (by simpa [v12recsBytes] using hz)
      (by simp [v12recsBytes] at hlt ⊢; omega)]
    simp [v12foldRecs, sliceFindIdx, readBytes]
  | cons r rest ih =>
    intro o fuel vals hr hwf hz hlt hf
    obtain ⟨f, rfl⟩ : ∃ f, fuel = f + 1 := ⟨fuel - 1, by omega⟩
    obtain ⟨k, v⟩ := r
    have hkwf := hwf (k, v) (List.mem_cons_self _ _)
    have hrb : v12recsBytes ((k, v) :: rest) =
        (k ++ 61 :: v) ++ ([0] ++ v12recsBytes rest) := by
      show (k ++ [61] ++ v ++ [0]) ++ v12recsBytes rest = _
      simp
    rw [hrb] at hr hz hlt
    rw [readsAs_append] at hr
    obtain ⟨hr1, hr2⟩ := hr
    obtain ⟨hz0, hr3⟩ := readsAs_head w (o + (k ++ 61 :: v).length) _ _ hr2
    have hnz : (0 : Nat) ∉ k ++ 61 :: v := by
      intro hm
      rcases List.mem_append.mp hm with hm | hm
      · exact hkwf.1 hm
      · rcases List.mem_cons.mp hm with hm | hm
        · exact absurd hm.symm (by decide)
        · exact hkwf.2.2 hm
    unfold V12.parseSecVars
    rw [findZero_spec w (k ++ 61 :: v) o (w.len - o) hr1 hnz
      (by simpa using hz0)
      (by simp at hlt ⊢; omega)]
    dsimp only
    rw [readBytes_of_readsAs w o _ hr1]
    rw [sliceFindIdx_mid k v hkwf.2.1]
    dsimp only
    rw [List.take_left k (61 :: v)]
    rw [show (k ++ 61 :: v).drop (k.length + 1) = v by
      rw [← List.drop_drop, List.drop_left]
      rfl]
    rw [ih (o + (k ++ 61 :: v).length + 1) f _ hr3
      (fun x hx => hwf x (List.mem_cons_of_mem _ hx))
      (by
        convert hz using 2
        simp
        omega)
      (by simp only [List.length_append, List.length_cons] at hlt ⊢; omega)
      (by simp at hf; omega)]
    rfl


theorem chrpSerialize_length (h : V12.CHRPHeader) (hname : h.name.length ≤ 12) :
    h.serialize.length = 16 := by
  simp [V12.CHRPHeader.serialize, le16]
  omega

theorem chrpSerialize_lt (h : V12.CHRPHeader) (hnb : ∀ x ∈ h.name, x < 256) :
    ∀ x ∈ h.serialize, x < 256 := by
  intro x hx
  unfold V12.CHRPHeader.serialize at hx
  rcases List.mem_append.mp hx with hx | hx
  · rcases List.mem_append.mp hx with hx | hx
    · rcases List.mem_append.mp hx with hx | hx
      · rcases List.mem_cons.mp hx with rfl | hx
        · exact Nat.mod_lt _ (by omega)
        · rcases List.mem_cons.mp hx with rfl | hx
          · exact chrpChecksum_lt h hnb
          · exact absurd hx (List.not_mem_nil x)
      · rcases List.mem_cons.mp hx with rfl | hx
        · exact Nat.mod_lt _ (by omega)
        · rcases List.mem_cons.mp hx with rfl | hx
          · exact Nat.mod_lt _ (by omega)
          · exact absurd hx (List.not_mem_nil x)
    · exact hnb x hx
  · rw [List.eq_of_mem_replicate hx]
    omega

theorem v12recsBytes_lt (recs : List (List Nat × List Nat))
    (hwf : ∀ r ∈ recs, v12recWF r) : ∀ x ∈ v12recsBytes recs, x < 256 := by
  intro x hx
  simp only [v12recsBytes, List.mem_flatMap] at hx
  obtain ⟨r, hr, hx⟩ := hx
  obtain ⟨-, -, -, hk, hv⟩ := hwf r hr
  simp only [List.mem_append, List.mem_cons, List.mem_singleton,
    List.not_mem_nil, or_false] at hx
  rcases hx with ((hx | rfl) | hx) | rfl
  · exact hk x hx
  · omega
  · exact hv x hx
  · omega

theorem v12recsBytes_len_ge (recs : List (List Nat × List Nat)) :
    recs.length ≤ (v12recsBytes recs).length := by
  induction recs with
  | nil => simp [v12recsBytes]
  | cons r t ih =>
    show (r :: t).length ≤ ((r.1 ++ [61] ++ r.2 ++ [0]) ++ v12recsBytes t).length
    simp only [List.length_cons, List.length_append]
    simp at ih ⊢
    omega

/-- C8 (amended): `Section::parse` collects the `key=value NUL` records
from byte 16 and stops exactly at the first zero-terminated run with no
`'='` — the header's declared size (`h.size`, free here up to the u16
range) is never consulted, so records beyond it are still collected,
and bytes after the terminator (`junk`, free here) are never read. -/
theorem c8_section_parse_any_size (h : V12.CHRPHeader)
    (recs : List (List Nat × List Nat)) (junk : List Nat)
    (hname : h.name.length ≤ 12) (hlast : h.name.getLast? ≠ some 0)
    (hnb : ∀ x ∈ h.name, x < 256) (hsig : h.signature < 256)
    (hsize : h.size < 65536)
    (hwf : ∀ r ∈ recs, v12recWF r) (hjunk : ∀ x ∈ junk, x < 256) :
    V12.Section.parse
      (bytesOfList (h.serialize ++ v12recsBytes recs ++ [0] ++ junk)) =
      .ok ⟨h, v12foldRecs h.name [] recs⟩ := by
  rw [List.append_assoc, List.append_assoc]
  set L := h.serialize ++ (v12recsBytes recs ++ ([0] ++ junk)) with hL
  have hLlt : ∀ x ∈ L, x < 256 := by
    intro x hx
    rw [hL] at hx
    rcases List.mem_append.mp hx with hx | hx
    · exact chrpSerialize_lt h hnb x hx
    · rcases List.mem_append.mp hx with hx | hx
      · exact v12recsBytes_lt recs hwf x hx
      · rcases List.mem_append.mp hx with hx | hx
        · rcases List.mem_cons.mp hx with rfl | hx
          · omega
          · exact absurd hx (List.not_mem_nil x)
        · exact hjunk x hx
  have hra : readsAs (bytesOfList L) 0 L := readsAs_bytesOfList L hLlt
  have hlen16 := chrpSerialize_length h hname
  have hwlen : (bytesOfList L).len =
      16 + (v12recsBytes recs).length + 1 + junk.length := by
    show L.length = _
    rw [hL]
    simp [hlen16]
    omega
  obtain ⟨hrhdr, hrest⟩ := (readsAs_append (bytesOfList L) 0 h.serialize
    (v12recsBytes recs ++ ([0] ++ junk))).mp hra
  rw [hlen16] at hrest
  norm_num at hrest
  obtain ⟨hrrecs, hrterm⟩ := (readsAs_append (bytesOfList L) 16
    (v12recsBytes recs) ([0] ++ junk)).mp hrest
  obtain ⟨hzero, -⟩ := readsAs_head _ _ _ _ hrterm
  unfold V12.Section.parse
  rw [if_neg (by rw [hwlen]; omega)]
  rw [chrp_parse_of_serialize (bytesOfList L) h hrhdr hname hlast hsig hsize]
  dsimp only
  rw [parseSecVars_spec (bytesOfList L) h.name recs 16 ((bytesOfList L).len + 1) []
    hrrecs (fun r hr => ⟨(hwf r hr).1, (hwf r hr).2.1, (hwf r hr).2.2.1⟩)
    (by simpa using hzero)
    (by rw [hwlen]; omega)
    (by rw [hwlen]; have := v12recsBytes_len_ge recs; omega)]


/-- Witness for `c8_section_parse_any_size`: one record after a header
declaring size 1 (16 bytes), with a junk byte beyond the terminator. -/
theorem c8_section_parse_any_size_witness :
    V12.Section.parse (bytesOfList
      ((⟨V12.commonName, 1, 0x70⟩ : V12.CHRPHeader).serialize ++
        v12recsBytes [([97], [98])] ++ [0] ++ [55])) =
      .ok ⟨⟨V12.commonName, 1, 0x70⟩, v12foldRecs V12.commonName [] [([97], [98])]⟩ :=
  c8_section_parse_any_size ⟨V12.commonName, 1, 0x70⟩ [([97], [98])] [55]
    (by decide) (by decide) (by decide) (by decide) (by decide)
    (by
      intro r hr
      rcases List.mem_singleton.mp hr with rfl
      exact ⟨by decide, by decide, by decide, by decide, by decide⟩)
    (by decide)


/-! ## C6 — round-trip on canonical images: v3 side -/

theorem adler32_lt (l : List Nat) : adler32 l < 4294967296 := by
  have hfold : ∀ (l : List Nat) (p : Nat × Nat), p.1 < 65521 → p.2 < 65521 →
      (l.foldl adlerStep p).1 < 65521 ∧ (l.foldl adlerStep p).2 < 65521 := by
    intro l
    induction l with
    | nil => intro p h1 h2; simpa using ⟨h1, h2⟩
    | cons x t ih =>
      intro p h1 h2
      simp only [List.foldl_cons]
      exact ih _ (Nat.mod_lt _ (by omega)) (Nat.mod_lt _ (by omega))
  have := hfold l (1, 0) (by omega) (by omega)
  unfold adler32
  dsimp only
  omega

theorem readsAs_bdrop (w : Bytes) (a o : Nat) (l : List Nat)
    (h : readsAs w (a + o) l) : readsAs (bdrop w a) o l := by
  intro i hi
  have := h i hi
  show w.data (a + (o + i)) % 256 = l.getD i 0
  rw [show a + (o + i) = a + o + i by omega]
  exact this

theorem mem_append_bound {a b : List Nat} (ha : ∀ x ∈ a, x < 256)
    (hb : ∀ x ∈ b, x < 256) : ∀ x ∈ a ++ b, x < 256 := by
  intro x hx
  rcases List.mem_append.mp hx with h | h
  · exact ha x h
  · exact hb x h

theorem le32_lt (n : Nat) : ∀ x ∈ le32 n, x < 256 := by
  intro x hx
  simp only [le32, List.mem_cons, List.not_mem_nil, or_false] at hx
  rcases hx with rfl | rfl | rfl | rfl
  all_goals omega

theorem v12secBytes_length (s : V12.Section) (nm : List Nat)
    (hwf : v12secWF s nm) (hnm12 : nm.length ≤ 12) :
    (v12secBytes s).length = s.sizeBytes := by
  obtain ⟨hname, -, -, -, -, hfit⟩ := hwf
  unfold v12secBytes
  dsimp only
  simp only [List.length_append, List.length_replicate]
  rw [chrpSerialize_length s.header (by rw [hname]; exact hnm12)] at *
  omega

theorem v12partBytes_length (p : V12.Partition) (hwf : v12partWF p) :
    (v12partBytes p).length = p.sizeBytes := by
  obtain ⟨hname, -, -, -, hcom, hsys⟩ := hwf
  unfold v12partBytes
  dsimp only
  simp only [List.length_append, List.length_replicate]
  rw [chrpSerialize_length p.header (by rw [hname]; decide)]
  rw [v12secBytes_length p.common V12.commonName hcom (by decide)]
  rw [v12secBytes_length p.system V12.systemName hsys (by decide)]
  unfold V12.Partition.sizeBytes
  simp [le32]
  omega

theorem mapInsert_fresh (m : List (List Nat × V12.Variable)) (k : List Nat)
    (v : V12.Variable) (h : ∀ e ∈ m, e.1 ≠ k) :
    V12.mapInsert m k v = m ++ [(k, v)] := by
  unfold V12.mapInsert
  rw [if_neg (by
    intro hany
    obtain ⟨e, he, hek⟩ := List.any_eq_true.mp hany
    exact h e he (by simpa using hek))]

theorem v12recsBytes_map (values : List (List Nat × V12.Variable)) :
    v12recsBytes (values.map (fun e => (e.2.key, e.2.value))) =
    values.flatMap (fun e => e.2.key ++ [61] ++ e.2.value ++ [0]) := by
  induction values with
  | nil => rfl
  | cons e t ih =>
    unfold v12recsBytes at ih ⊢
    rw [List.map_cons, List.flatMap_cons, List.flatMap_cons, ih]

theorem foldRecs_reconstruct (nm : List Nat) :
    ∀ (values acc : List (List Nat × V12.Variable)),
    (∀ e ∈ values, e.1 = e.2.key ∧ e.2.typ = v12typOf nm) →
    (values.map (fun e => e.1)).Nodup →
    (∀ e ∈ values, ∀ a ∈ acc, a.1 ≠ e.1) →
    v12foldRecs nm acc (values.map (fun e => (e.2.key, e.2.value))) = acc ++ values := by
  intro values
  induction values with
  | nil =>
    intro acc _ _ _
    simp [v12foldRecs]
  | cons e t ih =>
    intro acc hents hnd hdisj
    obtain ⟨hk, ht⟩ := hents e (List.mem_cons_self e t)
    unfold v12foldRecs
    rw [List.map_cons, List.foldl_cons]
    rw [show V12.mapInsert acc e.2.key ⟨e.2.key, e.2.value, v12typOf nm⟩ =
        acc ++ [(e.2.key, ⟨e.2.key, e.2.value, v12typOf nm⟩)] from
      mapInsert_fresh acc e.2.key _ (fun a ha => by
        rw [← hk]
        exact hdisj e (List.mem_cons_self e t) a ha)]
    have hpair : ((e.2.key, ⟨e.2.key, e.2.value, v12typOf nm⟩) :
        List Nat × V12.Variable) = e := by
      rw [← ht]
      rw [show (⟨e.2.key, e.2.value, e.2.typ⟩ : V12.Variable) = e.2 from rfl]
      rw [← hk]
    rw [hpair]
    rw [show acc ++ e :: t = (acc ++ [e]) ++ t by simp]
    exact ih (acc ++ [e]) (fun x hx => hents x (List.mem_cons_of_mem e hx))
      ((List.nodup_cons.mp hnd).2)
      (fun x hx a ha => by
        rcases List.mem_append.mp ha with ha | ha
        · exact hdisj x (List.mem_cons_of_mem e hx) a ha
        · have hae : a = e := List.mem_singleton.mp ha
          intro heq
          have hmem : e.1 ∈ t.map (fun e => e.1) := by
            rw [← hae, heq]
            exact List.mem_map.mpr ⟨x, hx, rfl⟩
          exact absurd hmem (List.nodup_cons.mp hnd).1)


/-- A canonical v1v2 section parses back from its serialization placed
at offset `o` of a larger window. -/
theorem v12section_parse_at (w : Bytes) (o : Nat) (s : V12.Section) (nm : List Nat)
    (hwf : v12secWF s nm) (hnm12 : nm.length ≤ 12) (hnml : nm.getLast? ≠ some 0)
    (hra : readsAs w o (v12secBytes s))
    (hbound : o + s.sizeBytes ≤ w.len) :
    V12.Section.parse (bdrop w o) = .ok s := by
  obtain ⟨hname, hsig, hsize, hents, hnd, hfit⟩ := hwf
  unfold v12secBytes at hra
  dsimp only at hra
  rw [readsAs_append] at hra
  obtain ⟨hbody, hpad⟩ := hra
  rw [readsAs_append] at hbody
  obtain ⟨hhdr, hrecs⟩ := hbody
  have hl16 : s.header.serialize.length = 16 :=
    chrpSerialize_length s.header (by rw [hname]; exact hnm12)
  rw [hl16] at hrecs
  have hlenb : (s.header.serialize ++
      s.values.flatMap (fun e => e.2.key ++ [61] ++ e.2.value ++ [0])).length =
      16 + (s.values.flatMap (fun e => e.2.key ++ [61] ++ e.2.value ++ [0])).length := by
    rw [List.length_append, hl16]
  rw [hlenb] at hpad
  have hRmap := v12recsBytes_map s.values
  have hchrp := chrp_parse_of_serialize (bdrop w o) s.header
    (readsAs_bdrop w o 0 _ (by rw [Nat.add_zero]; exact hhdr))
    (by rw [hname]; exact hnm12) (by rw [hname]; exact hnml) hsig hsize
  have hterm : w.byte (o + (16 +
      (s.values.flatMap (fun e => e.2.key ++ [61] ++ e.2.value ++ [0])).length)) = 0 := by
    have h0 := hpad 0 (by rw [List.length_replicate]; omega)
    rw [Nat.add_zero] at h0
    rw [h0]
    rw [List.getD_eq_getElem _ 0 (by rw [List.length_replicate]; omega)]
    exact List.getElem_replicate ..
  have hwalk := parseSecVars_spec (bdrop w o) s.header.name
    (s.values.map (fun e => (e.2.key, e.2.value))) 16 ((bdrop w o).len + 1) []
    (by
      rw [hRmap]
      exact readsAs_bdrop w o 16 _ hrecs)
    (by
      intro r hr
      obtain ⟨e, he, hre⟩ := List.mem_map.mp hr
      obtain ⟨-, -, hrwf⟩ := hents e he
      obtain ⟨h1, h2, h3, -, -⟩ := hrwf
      rw [← hre]
      exact ⟨h1, h2, h3⟩)
    (by
      show w.byte (o + (16 + (v12recsBytes
        (s.values.map (fun e => (e.2.key, e.2.value)))).length)) = 0
      rw [hRmap]
      exact hterm)
    (by
      show 16 + (v12recsBytes (s.values.map (fun e => (e.2.key, e.2.value)))).length <
        w.len - o
      rw [hRmap]
      omega)
    (by
      show (s.values.map (fun e => (e.2.key, e.2.value))).length + 1 ≤ w.len - o + 1
      have hge := v12recsBytes_len_ge (s.values.map (fun e => (e.2.key, e.2.value)))
      rw [hRmap] at hge
      rw [List.length_map]
      have : s.values.length ≤
          (s.values.flatMap (fun e => e.2.key ++ [61] ++ e.2.value ++ [0])).length := by
        rw [List.length_map] at hge
        exact hge
      omega)
  have hfold := foldRecs_reconstruct nm s.values []
    (fun e he => ⟨(hents e he).1, (hents e he).2.1⟩) hnd
    (fun e he a ha => absurd ha (List.not_mem_nil a))
  rw [List.nil_append] at hfold
  unfold V12.Section.parse
  rw [if_neg (show ¬ ((bdrop w o).len < 16) from by
    show ¬ (w.len - o < 16)
    omega)]
  rw [hchrp]
  dsimp only
  rw [hwalk]
  rw [hname]
  rw [hfold]


theorem le32_length (n : Nat) : (le32 n).length = 4 := rfl

theorem readsAs_reindex (w : Bytes) (a b : Nat) (l : List Nat)
    (h : readsAs w a l) (hab : a = b) : readsAs w b l := hab ▸ h

/-- A canonical v1v2 partition parses back from a window starting with
its serialization. -/
theorem v12partition_parse_of (w : Bytes) (p : V12.Partition)
    (hwf : v12partWF p) (hra : readsAs w 0 (v12partBytes p))
    (hlen : p.sizeBytes ≤ w.len) :
    V12.Partition.parse w = .ok p := by
  obtain ⟨hname, hsig, hsize, hgen, hcom, hsys⟩ := hwf
  have hszeq : p.sizeBytes = 32 + p.common.sizeBytes + p.system.sizeBytes := rfl
  have hcomname : p.common.header.name = V12.commonName := hcom.1
  have hsysname : p.system.header.name = V12.systemName := hsys.1
  have hcomfit := hcom.2.2.2.2.2
  have hsysfit := hsys.2.2.2.2.2
  have hhdrlen : p.header.serialize.length = 16 :=
    chrpSerialize_length p.header (by rw [hname]; decide)
  have hcomlen : (v12secBytes p.common).length = p.common.sizeBytes :=
    v12secBytes_length p.common V12.commonName hcom (by decide)
  have hsyslen : (v12secBytes p.system).length = p.system.sizeBytes :=
    v12secBytes_length p.system V12.systemName hsys (by decide)
  unfold v12partBytes at hra
  dsimp only at hra
  rw [readsAs_append] at hra
  obtain ⟨hAB, hpayload⟩ := hra
  have hpayload2 := hpayload
  rw [readsAs_append] at hAB
  obtain ⟨hhdr, hadler⟩ := hAB
  rw [readsAs_append] at hpayload
  obtain ⟨h3, hsysB⟩ := hpayload
  rw [readsAs_append] at h3
  obtain ⟨h4, hcomB⟩ := h3
  rw [readsAs_append] at h4
  obtain ⟨hgenB, -⟩ := h4
  have hadler2 := readsAs_reindex w _ 16 _ hadler (by rw [hhdrlen])
  have hpayload3 := readsAs_reindex w _ 20 _ hpayload2
    (by rw [List.length_append, hhdrlen, le32_length])
  have hgenB2 := readsAs_reindex w _ 20 _ hgenB
    (by rw [List.length_append, hhdrlen, le32_length])
  have hcomB2 := readsAs_reindex w _ 32 _ hcomB
    (by
      simp only [List.length_append, List.length_replicate, hhdrlen, le32_length])
  have hsysB2 := readsAs_reindex w _ (32 + p.common.sizeBytes) _ hsysB
    (by
      simp only [List.length_append, List.length_replicate, hhdrlen, le32_length,
        hcomlen]
      omega)
  have hchrp := chrp_parse_of_serialize w p.header hhdr
    (by rw [hname]; decide) (by rw [hname]; decide) hsig hsize
  have hsec1 := v12section_parse_at w 32 p.common V12.commonName hcom (by decide)
    (by decide) hcomB2 (by omega)
  have hsec2 := v12section_parse_at w (32 + p.common.sizeBytes) p.system
    V12.systemName hsys (by decide) (by decide) hsysB2 (by omega)
  have hpl : (le32 (p.generation % 4294967296) ++ List.replicate 8 0 ++
      v12secBytes p.common ++ v12secBytes p.system).length =
      12 + p.common.sizeBytes + p.system.sizeBytes := by
    simp only [List.length_append, List.length_replicate, le32_length, hcomlen, hsyslen]
  have hrb : readBytes w 20 (12 + p.common.sizeBytes + p.system.sizeBytes) =
      le32 (p.generation % 4294967296) ++ List.replicate 8 0 ++
      v12secBytes p.common ++ v12secBytes p.system := by
    rw [← hpl]
    exact readBytes_of_readsAs w 20 _ hpayload3
  unfold V12.Partition.parse
  rw [if_neg (show ¬ (w.len < 16) by omega)]
  rw [hchrp]
  dsimp only
  rw [if_neg (show ¬ (p.header.name ≠ V12.nvramName) from by
    rw [hname]
    exact fun h => h rfl)]
  rw [if_neg (show ¬ (w.len < 24) by omega)]
  rw [if_neg (show ¬ (w.len < 32) by omega)]
  rw [hsec1]
  dsimp only
  rw [if_neg (show ¬ (32 + p.common.sizeBytes > w.len) by omega)]
  rw [hsec2]
  dsimp only
  rw [if_neg (show ¬ (32 + p.common.sizeBytes + p.system.sizeBytes > w.len) by omega)]
  rw [hrb]
  rw [rdU32_le32 w 16 _ hadler2 (adler32_lt _)]
  rw [if_neg (show ¬ (adler32 (le32 (p.generation % 4294967296) ++
      List.replicate 8 0 ++ v12secBytes p.common ++ v12secBytes p.system) ≠
      adler32 (le32 (p.generation % 4294967296) ++ List.replicate 8 0 ++
      v12secBytes p.common ++ v12secBytes p.system)) from fun h => h rfl)]
  rw [rdU32_le32 w 20 _ hgenB2 (Nat.mod_lt _ (by omega))]
  rw [Nat.mod_eq_of_lt hgen]
  rw [if_pos hcomname]
  rw [if_neg (show ¬ (p.common.header.name = V12.systemName) from by
    rw [hcomname]
    decide)]
  rw [if_pos hsysname]


theorem v12secBytes_lt (s : V12.Section) (nm : List Nat) (hwf : v12secWF s nm)
    (hnmb : ∀ x ∈ nm, x < 256) : ∀ x ∈ v12secBytes s, x < 256 := by
  obtain ⟨hname, -, -, hents, -, -⟩ := hwf
  unfold v12secBytes
  dsimp only
  apply mem_append_bound
  · apply mem_append_bound
    · exact chrpSerialize_lt s.header (by rw [hname]; exact hnmb)
    · intro x hx
      obtain ⟨e, he, hxe⟩ := List.mem_flatMap.mp hx
      obtain ⟨-, -, hrwf⟩ := hents e he
      obtain ⟨-, -, -, hkb, hvb⟩ := hrwf
      rcases List.mem_append.mp hxe with hx2 | hx2
      · rcases List.mem_append.mp hx2 with hx3 | hx3
        · rcases List.mem_append.mp hx3 with hx4 | hx4
          · exact hkb x hx4
          · simp only [List.mem_cons, List.not_mem_nil, or_false] at hx4
            omega
        · exact hvb x hx3
      · simp only [List.mem_cons, List.not_mem_nil, or_false] at hx2
        omega
  · intro x hx
    rw [List.eq_of_mem_replicate hx]
    omega

theorem v12partBytes_lt (p : V12.Partition) (hwf : v12partWF p) :
    ∀ x ∈ v12partBytes p, x < 256 := by
  obtain ⟨hname, -, -, -, hcom, hsys⟩ := hwf
  unfold v12partBytes
  dsimp only
  apply mem_append_bound
  · apply mem_append_bound
    · exact chrpSerialize_lt p.header (by rw [hname]; decide)
    · exact le32_lt _
  · apply mem_append_bound
    · apply mem_append_bound
      · apply mem_append_bound
        · exact le32_lt _
        · intro x hx
          rw [List.eq_of_mem_replicate hx]
          omega
      · exact v12secBytes_lt p.common V12.commonName hcom (by decide)
    · exact v12secBytes_lt p.system V12.systemName hsys (by decide)

end ANvram
